import Mathlib

/-!
Verification development for the backgammon rule engine and turn controller
(`board.hpp` / `board.cpp`) and the match registry (`server/match.hpp` /
`server/match.cpp`).

The observable board state is embedded as per-side checker counts for the 24
points together with bar and off counters (`SimpleState`), matching the data
the C++ `_points` sets, `_whitebar`/`_blackbar`/`_whiteoff`/`_blackoff`
counters, and the commit-time `SimpleState` snapshot expose.  Checker objects
carry no observable data besides their side, so `Checker*` identities are not
modelled; where the source stores a pointer (step log, hit checker) the
embedding stores the corresponding side, which in every state the controller
can produce is the actor respectively its opponent.

C++ `unsigned` decrements that are guarded by `> 0` tests in the source are
modelled by truncated `Nat` subtraction, which has exactly the same behaviour.
Positions and pips are `Int`, as in the source (`int from, pip`), so that
out-of-board destinations such as `from - pip < 0` are represented faithfully.
Functions that throw (`setDice`, `setOpeningDice`) return `Option`; `none`
models the thrown exception (the source throws before any mutation).
-/

namespace BG

/-- Player side indicator, mirroring `enum class Side`. -/
inductive Side where
  | WHITE
  | BLACK
  | NONE
deriving DecidableEq, Repr

/-- Coarse game phase, mirroring `enum class Phase`. -/
inductive Phase where
  | OpeningRoll
  | AwaitingRoll
  | Moving
  | CubeOffered
deriving DecidableEq, Repr

/-- Opening-doubles policy, mirroring `Rules::OpeningDoublePolicy`. -/
inductive OpeningDoublePolicy where
  | REROLL
  | AUTODOUBLE
deriving DecidableEq, Repr

/-- Game rule options, mirroring `struct Rules`. -/
structure Rules where
  openingDoublePolicy : OpeningDoublePolicy := OpeningDoublePolicy.REROLL
  maxOpeningAutoDoubles : Nat := 0
deriving DecidableEq, Repr

/-- Result info, mirroring `Board::GameResult`. -/
structure GameResult where
  over : Bool := false
  winner : Side := Side.NONE
  finalCube : Nat := 1
  resigned : Bool := false
deriving DecidableEq, Repr

/-- One applied step, mirroring `Board::Step` (the `moved` / `hitChecker`
pointers carry no observable data besides their sides and are not stored;
see the module comment). -/
structure Step where
  fromPt : Int := 0
  toPt : Int := 0
  pip : Int := 0
  hit : Bool := false
  entered : Bool := false
  borneOff : Bool := false
deriving DecidableEq, Repr

/-- Value-typed board snapshot, mirroring `Board::SimpleState`: `w`/`b` are
the 25-entry count arrays (index 0 unused, indices 1..24 are the points),
plus bar and off counters per side.  The same shape also serves as the live
occupancy of the board (`_points` plus the four counters). -/
structure SimpleState where
  w : List Nat
  b : List Nat
  wbar : Nat := 0
  bbar : Nat := 0
  woff : Nat := 0
  boff : Nat := 0
deriving DecidableEq, Repr

/-- Count of white checkers at point `p` (array read `w[p]`). -/
def SimpleState.wAt (s : SimpleState) (p : Nat) : Nat := s.w.getD p 0

/-- Count of black checkers at point `p` (array read `b[p]`). -/
def SimpleState.bAt (s : SimpleState) (p : Nat) : Nat := s.b.getD p 0

/-- The all-zero snapshot `SimpleState{}`. -/
def SimpleState.empty : SimpleState :=
  { w := List.replicate 25 0, b := List.replicate 25 0 }

/-- `Board::opponent`. -/
def opponent : Side → Side
  | Side.WHITE => Side.BLACK
  | Side.BLACK => Side.WHITE
  | Side.NONE => Side.NONE

/-- `Board::destPoint`: destination of a step (`from == 0` means the bar). -/
def destPoint (s : Side) (fromPt pip : Int) : Int :=
  if s = Side.WHITE then (if fromPt = 0 then 25 - pip else fromPt - pip)
  else (if fromPt = 0 then pip else fromPt + pip)

/-- `Board::inBoard`. -/
def inBoard (p : Int) : Prop := 1 ≤ p ∧ p ≤ 24

instance (p : Int) : Decidable (inBoard p) := by unfold inBoard; infer_instance

/-- `Board::pointCount`: total number of checkers on a point (`_points[p-1].size()`). -/
def pointCount (s : SimpleState) (p : Int) : Nat :=
  if inBoard p then s.wAt p.toNat + s.bAt p.toNat else 0

/-- `Board::pointSide`: owner of a point, `NONE` if empty.  (The source reads
the side of an arbitrary element of the set; points never hold checkers of
both sides in any state the controller can produce, and the white-first
ordering here coincides with the `ownerAt` lambda used by the search.) -/
def pointSide (s : SimpleState) (p : Int) : Side :=
  if ¬ inBoard p then Side.NONE
  else if 0 < s.wAt p.toNat then Side.WHITE
  else if 0 < s.bAt p.toNat then Side.BLACK
  else Side.NONE

/-- `Board::sidePointCount`: count for side `sd` on `p` (0 or the whole stack). -/
def sidePointCount (s : SimpleState) (sd : Side) (p : Int) : Nat :=
  if ¬ inBoard p then 0
  else if pointCount s p = 0 then 0
  else if pointSide s p = sd then pointCount s p
  else 0

/-- `Board::popFromPoint`: remove one checker from `p`, returning the new
state and the side of the removed checker. -/
def popFromPoint (s : SimpleState) (p : Int) : SimpleState × Side :=
  match pointSide s p with
  | Side.WHITE => ({ s with w := s.w.set p.toNat (s.wAt p.toNat - 1) }, Side.WHITE)
  | Side.BLACK => ({ s with b := s.b.set p.toNat (s.bAt p.toNat - 1) }, Side.BLACK)
  | Side.NONE => (s, Side.NONE)

/-- `Board::pushToPoint`: add one checker of side `sd` to point `p`. -/
def pushToPoint (s : SimpleState) (sd : Side) (p : Int) : SimpleState :=
  match sd with
  | Side.WHITE => { s with w := s.w.set p.toNat (s.wAt p.toNat + 1) }
  | Side.BLACK => { s with b := s.b.set p.toNat (s.bAt p.toNat + 1) }
  | Side.NONE => s

/-- `Board::pushToBar`. -/
def pushToBar (s : SimpleState) (sd : Side) : SimpleState :=
  match sd with
  | Side.WHITE => { s with wbar := s.wbar + 1 }
  | Side.BLACK => { s with bbar := s.bbar + 1 }
  | Side.NONE => s

/-- `Board::pushOff`. -/
def pushOff (s : SimpleState) (sd : Side) : SimpleState :=
  match sd with
  | Side.WHITE => { s with woff := s.woff + 1 }
  | Side.BLACK => { s with boff := s.boff + 1 }
  | Side.NONE => s

/-- `Board::allInHome`: bar empty and the 15 checkers distributed over the
home quadrant and the off tray. -/
def allInHome (s : SimpleState) (sd : Side) : Prop :=
  match sd with
  | Side.WHITE =>
      s.wbar = 0 ∧
      (List.range' 1 6).foldl (fun a p => a + sidePointCount s Side.WHITE (p : Int)) 0 + s.woff = 15
  | Side.BLACK =>
      s.bbar = 0 ∧
      (List.range' 19 6).foldl (fun a p => a + sidePointCount s Side.BLACK (p : Int)) 0 + s.boff = 15
  | Side.NONE => False

instance (s : SimpleState) (sd : Side) : Decidable (allInHome s sd) :=
  match sd with
  | Side.WHITE => inferInstanceAs (Decidable (_ ∧ _))
  | Side.BLACK => inferInstanceAs (Decidable (_ ∧ _))
  | Side.NONE => inferInstanceAs (Decidable False)

/-- `Board::anyFurtherFromHome`: some checker of `sd` strictly further from
home than `fromPt`. -/
def anyFurtherFromHome (s : SimpleState) (sd : Side) (fromPt : Int) : Prop :=
  if sd = Side.WHITE then
    ∃ p ∈ List.range' 1 24, fromPt < (p : Int) ∧ 0 < sidePointCount s Side.WHITE (p : Int)
  else
    ∃ p ∈ List.range' 1 24, (p : Int) < fromPt ∧ 0 < sidePointCount s Side.BLACK (p : Int)

instance (s : SimpleState) (sd : Side) (fromPt : Int) :
    Decidable (anyFurtherFromHome s sd fromPt) := by
  unfold anyFurtherFromHome; infer_instance

/-- Landing part of the `Board::applyStep` mutation (board.cpp lines
361-381), after the mover has been popped: detect a hit on the post-pop
state `s1`, then push to the destination point or the off tray. -/
def applyLand (s1 : SimpleState) (moverSide : Side) (actor : Side) (fromPt toPt pip : Int) :
    Except String (SimpleState × Step) :=
  if ¬ inBoard toPt then
    Except.ok (pushOff s1 actor,
      { fromPt := fromPt, toPt := toPt, pip := pip, hit := false,
        entered := decide (fromPt = 0), borneOff := true })
  else if pointSide s1 toPt ≠ Side.NONE ∧ pointSide s1 toPt ≠ actor ∧
      pointCount s1 toPt = 1 then
    Except.ok (pushToPoint (pushToBar (popFromPoint s1 toPt).1 (popFromPoint s1 toPt).2)
        moverSide toPt,
      { fromPt := fromPt, toPt := toPt, pip := pip, hit := true,
        entered := decide (fromPt = 0), borneOff := false })
  else
    Except.ok (pushToPoint s1 moverSide toPt,
      { fromPt := fromPt, toPt := toPt, pip := pip, hit := false,
        entered := decide (fromPt = 0), borneOff := false })

/-- The mutation part of `Board::applyStep` (board.cpp lines 351-381): pop
the mover (with the source's bar-underflow guard), then land it via
`applyLand`. -/
def applyMove (s0 : SimpleState) (actor : Side) (fromPt toPt pip : Int) :
    Except String (SimpleState × Step) :=
  if fromPt = 0 then
    match actor with
    | Side.WHITE =>
        if s0.wbar = 0 then Except.error "applyStep: internal bar underflow"
        else applyLand { s0 with wbar := s0.wbar - 1 } Side.WHITE actor fromPt toPt pip
    | Side.BLACK =>
        if s0.bbar = 0 then Except.error "applyStep: internal bar underflow"
        else applyLand { s0 with bbar := s0.bbar - 1 } Side.BLACK actor fromPt toPt pip
    | Side.NONE => Except.error "applyStep: internal bar underflow"
  else applyLand (popFromPoint s0 fromPt).1 (popFromPoint s0 fromPt).2 actor fromPt toPt pip

/-- The destination checks of `Board::applyStep` (board.cpp lines 328-349):
blocked landing, and the three bear-off conditions. -/
def applyDest (s0 : SimpleState) (actor : Side) (fromPt pip toPt : Int) :
    Except String (SimpleState × Step) :=
  if inBoard toPt ∧ pointSide s0 toPt ≠ Side.NONE ∧ pointSide s0 toPt ≠ actor ∧
      2 ≤ pointCount s0 toPt then
    Except.error "applyStep: destination blocked"
  else if ¬ inBoard toPt ∧ ¬ allInHome s0 actor then
    Except.error "applyStep: cannot bear off, not all checkers in home"
  else if ¬ inBoard toPt ∧ actor = Side.WHITE ∧ fromPt ≠ pip ∧
      anyFurtherFromHome s0 Side.WHITE fromPt then
    Except.error "applyStep: must use exact roll or bear off highest checker"
  else if ¬ inBoard toPt ∧ actor ≠ Side.WHITE ∧ fromPt ≠ 25 - pip ∧
      anyFurtherFromHome s0 Side.BLACK fromPt then
    Except.error "applyStep: must use exact roll or bear off highest checker"
  else applyMove s0 actor fromPt toPt pip

/-- The legality checks and the mutation of `Board::applyStep` (board.cpp
lines 316-381), acting on the occupancy.  Dice bookkeeping and phase checks
are done by `Board.applyStep`.  Errors carry the source's `lastError`
strings. -/
def applyCore (s0 : SimpleState) (actor : Side) (fromPt pip : Int) :
    Except String (SimpleState × Step) :=
  if ((actor = Side.WHITE ∧ 0 < s0.wbar) ∨ (actor = Side.BLACK ∧ 0 < s0.bbar)) ∧ fromPt ≠ 0 then
    Except.error "applyStep: must enter from bar first"
  else if fromPt = 0 ∧ ((actor = Side.WHITE ∧ s0.wbar = 0) ∨ (actor = Side.BLACK ∧ s0.bbar = 0)) then
    Except.error "applyStep: bar empty"
  else if fromPt ≠ 0 ∧ ¬ inBoard fromPt then
    Except.error "applyStep: invalid source point"
  else if fromPt ≠ 0 ∧ sidePointCount s0 actor fromPt = 0 then
    Except.error "applyStep: no checker at source"
  else applyDest s0 actor fromPt pip (destPoint actor fromPt pip)

/-- The reversal performed by `Board::undoStep` (board.cpp lines 393-414) on
the occupancy.  The hit checker's side is the opponent of the actor (the
source reads it from the stored pointer). -/
def undoCore (s : SimpleState) (actor : Side) (st : Step) : SimpleState :=
  if st.borneOff then
    let s1 := if actor = Side.WHITE then { s with woff := s.woff - 1 }
              else { s with boff := s.boff - 1 }
    pushToPoint s1 actor st.fromPt
  else
    let s1 :=
      if inBoard st.toPt then
        if actor = Side.WHITE then { s with w := s.w.set st.toPt.toNat (s.wAt st.toPt.toNat - 1) }
        else { s with b := s.b.set st.toPt.toNat (s.bAt st.toPt.toNat - 1) }
      else s
    let s2 :=
      if st.hit then
        let opp := opponent actor
        let s2a := if opp = Side.WHITE then { s1 with wbar := s1.wbar - 1 }
                   else { s1 with bbar := s1.bbar - 1 }
        pushToPoint s2a opp st.toPt
      else s1
    if st.entered then pushToBar s2 actor else pushToPoint s2 actor st.fromPt


/-- The `ownerAt` lambda of `Board::dfsMax`. -/
def ownerAt (st : SimpleState) (p : Int) : Side :=
  if p < 1 ∨ 24 < p then Side.NONE
  else if 0 < st.wAt p.toNat then Side.WHITE
  else if 0 < st.bAt p.toNat then Side.BLACK
  else Side.NONE

/-- The `countAt` lambda of `Board::dfsMax`. -/
def dfsCountAt (st : SimpleState) (p : Int) : Nat :=
  if p < 1 ∨ 24 < p then 0
  else match ownerAt st p with
    | Side.WHITE => st.wAt p.toNat
    | Side.BLACK => st.bAt p.toNat
    | Side.NONE => 0

/-- The `anyFurther` lambda of `Board::dfsMax` (reads the count arrays
directly). -/
def dfsAnyFurther (st : SimpleState) (actor : Side) (fromPt : Int) : Bool :=
  if actor = Side.WHITE then
    (List.range' 1 24).any (fun p => decide (fromPt < (p : Int)) && decide (0 < st.wAt p))
  else
    (List.range' 1 24).any (fun p => decide ((p : Int) < fromPt) && decide (0 < st.bAt p))

/-- The bear-off `allHome` computation inside `Board::dfsMax` (board.cpp
lines 474-486). -/
def dfsAllHome (st : SimpleState) (actor : Side) : Bool :=
  if actor = Side.WHITE then
    decide (st.wbar = 0 ∧ (List.range' 1 6).foldl (fun a p => a + st.wAt p) 0 + st.woff = 15)
  else
    decide (st.bbar = 0 ∧ (List.range' 19 6).foldl (fun a p => a + st.bAt p) 0 + st.boff = 15)

/-- The admissible source points enumerated by `Board::dfsMax` (bar first if
the actor is on the bar, otherwise every point holding the actor's
checkers). -/
def dfsFroms (st : SimpleState) (actor : Side) : List Int :=
  let barFirst : Bool := if actor = Side.WHITE then decide (0 < st.wbar) else decide (0 < st.bbar)
  if barFirst then [0]
  else if actor = Side.WHITE then
    ((List.range' 1 24).filter (fun p => decide (0 < st.wAt p))).map (fun p : Nat => (p : Int))
  else
    ((List.range' 1 24).filter (fun p => decide (0 < st.bAt p))).map (fun p : Nat => (p : Int))

/-- Applying one allowed search move to a copy of the snapshot (board.cpp
lines 497-512); the `dec` lambda is truncated `Nat` subtraction. -/
def dfsApplyMove (st : SimpleState) (actor : Side) (fromPt toPt : Int) (hit : Bool) : SimpleState :=
  let s :=
    if fromPt = 0 then
      if actor = Side.WHITE then { st with wbar := st.wbar - 1 } else { st with bbar := st.bbar - 1 }
    else
      if actor = Side.WHITE then { st with w := st.w.set fromPt.toNat (st.wAt fromPt.toNat - 1) }
      else { st with b := st.b.set fromPt.toNat (st.bAt fromPt.toNat - 1) }
  if 1 ≤ toPt ∧ toPt ≤ 24 then
    let s := if hit then
        (if actor = Side.WHITE then { s with b := s.b.set toPt.toNat (s.bAt toPt.toNat - 1), bbar := s.bbar + 1 }
         else { s with w := s.w.set toPt.toNat (s.wAt toPt.toNat - 1), wbar := s.wbar + 1 })
      else s
    if actor = Side.WHITE then { s with w := s.w.set toPt.toNat (s.wAt toPt.toNat + 1) }
    else { s with b := s.b.set toPt.toNat (s.bAt toPt.toNat + 1) }
  else
    if actor = Side.WHITE then { s with woff := s.woff + 1 } else { s with boff := s.boff + 1 }

/-- One candidate move of the search loop body (board.cpp lines 458-512):
`none` if the move from `fromPt` with `pip` is not allowed, otherwise the
snapshot after applying it. -/
def dfsTry (st : SimpleState) (actor : Side) (pip fromPt : Int) : Option SimpleState :=
  let toPt := if actor = Side.WHITE then (if fromPt = 0 then 25 - pip else fromPt - pip)
              else (if fromPt = 0 then pip else fromPt + pip)
  if 1 ≤ toPt ∧ toPt ≤ 24 then
    let dstSide := ownerAt st toPt
    let dstCnt := dfsCountAt st toPt
    if dstSide ≠ Side.NONE ∧ dstSide ≠ actor ∧ 2 ≤ dstCnt then none
    else some (dfsApplyMove st actor fromPt toPt
        (decide (dstSide ≠ Side.NONE ∧ dstSide ≠ actor ∧ dstCnt = 1)))
  else
    if dfsAllHome st actor then
      if (if actor = Side.WHITE then fromPt = pip ∨ dfsAnyFurther st actor fromPt = false
          else fromPt = 25 - pip ∨ dfsAnyFurther st actor fromPt = false) then
        some (dfsApplyMove st actor fromPt toPt false)
      else none
    else none

/-- `Board::dfsMax`: depth-first enumeration of move orderings, returning the
maximum number of dice playable.  The C++ recursion needs no fuel because the
used-dice bitmask grows at every call; here the explicit `fuel` counter plays
that role.  `maxPlayableDice` supplies `fuel = dice.length`, which is enough
because each recursion level consumes one die, so at depth `d` at most
`dice.length - d` further levels can follow. -/
def dfsMax : Nat → SimpleState → Side → List Int → Nat → Nat
  | 0, _, _, _, _ => 0
  | fuel + 1, st, actor, dice, usedMask =>
    (List.range dice.length).foldl
      (fun best i =>
        if usedMask.testBit i then best
        else
          (dfsFroms st actor).foldl
            (fun best fromPt =>
              match dfsTry st actor (dice.getD i 0) fromPt with
              | none => best
              | some s2 => max best (1 + dfsMax fuel s2 actor dice (usedMask ||| 2 ^ i)))
            best)
      0

/-- `Board::maxPlayableDice`. -/
def maxPlayableDice (st : SimpleState) (actor : Side) (dice : List Int) : Nat :=
  if dice = [] then 0 else dfsMax dice.length st actor dice 0

/-- The complete turn-controller state: the live occupancy plus every other
member of the C++ `Board` that the controller reads or writes. -/
structure Board where
  state : SimpleState
  cubeval : Nat := 1
  cubeholder : Side := Side.NONE
  rules : Rules := {}
  phase : Phase := Phase.OpeningRoll
  actor : Side := Side.NONE
  diceLeft : List Int := []
  openingAutoDoubles : Nat := 0
  lastErr : String := ""
  cubePendingFrom : Side := Side.NONE
  result : GameResult := {}
  steps : List Step := []
  turnStart : SimpleState
  turnStartDice : List Int := []
  turnStartActor : Side := Side.NONE
deriving DecidableEq, Repr

/-- `Board::INIT_WHITE`. -/
def INIT_WHITE : List Nat := [24, 24, 13, 13, 13, 13, 13, 8, 8, 8, 6, 6, 6, 6, 6]

/-- `Board::INIT_BLACK`. -/
def INIT_BLACK : List Nat := [1, 1, 12, 12, 12, 12, 12, 17, 17, 17, 19, 19, 19, 19, 19]

/-- Per-point counts of a list of checker positions
(`Board::rebuildPointsFromCheckerPositions` for one side). -/
def countsOf (ps : List Nat) : List Nat :=
  (List.range 25).map (fun p => (ps.filter (fun q => q = p)).length)

/-- The standard starting occupancy. -/
def startState : SimpleState :=
  { w := countsOf INIT_WHITE, b := countsOf INIT_BLACK }

/-- `Board::startGame`: reset every member to the fresh-game state.  The
result does not depend on the prior state, so it is modelled as a function of
the rules alone. -/
def startGame (rules : Rules) : Board :=
  { state := startState, cubeval := 1, cubeholder := Side.NONE, rules := rules,
    phase := Phase.OpeningRoll, actor := Side.NONE, diceLeft := [],
    openingAutoDoubles := 0, lastErr := "", cubePendingFrom := Side.NONE,
    result := {}, steps := [], turnStart := SimpleState.empty,
    turnStartDice := [], turnStartActor := Side.NONE }

/-- `Board::snapshotTurnStart`: copy the live occupancy, the remaining dice
and the actor into the turn-start members.  (The C++ loop copies owner and
count of every point, which is exactly the occupancy.) -/
def Board.snapshotTurnStart (bd : Board) : Board :=
  { bd with turnStart := bd.state, turnStartDice := bd.diceLeft, turnStartActor := bd.actor }

/-- `Board::setOpeningDice`.  `none` models the two `throw`s (wrong phase /
dice out of range), which leave the board untouched.  `_cubeval` is a 32-bit
`unsigned`, so the `<<= 1` doubling wraps modulo `2 ^ 32 = 4294967296`. -/
def Board.setOpeningDice (bd : Board) (whiteDie blackDie : Int) : Option (Bool × Board) :=
  if bd.phase ≠ Phase.OpeningRoll then none
  else if whiteDie < 1 ∨ 6 < whiteDie ∨ blackDie < 1 ∨ 6 < blackDie then none
  else if whiteDie ≠ blackDie then
    let a := if blackDie < whiteDie then Side.WHITE else Side.BLACK
    let d := if blackDie < whiteDie then [whiteDie, blackDie] else [blackDie, whiteDie]
    some (true, Board.snapshotTurnStart
      { bd with actor := a, diceLeft := d, phase := Phase.Moving, lastErr := "", steps := [] })
  else
    if bd.rules.openingDoublePolicy = OpeningDoublePolicy.AUTODOUBLE then
      if bd.rules.maxOpeningAutoDoubles = 0 ∨
          bd.openingAutoDoubles < bd.rules.maxOpeningAutoDoubles then
        some (false, { bd with cubeval := bd.cubeval * 2 % 4294967296,
                               openingAutoDoubles := bd.openingAutoDoubles + 1 })
      else some (false, bd)
    else some (false, bd)

/-- One iteration of `Board::rollOpening`'s retry loop for the freshly drawn
pair (board.cpp lines 144-162): a non-doubles pair applies the opening roll
and ends the loop; doubles are rerolled unchanged under REROLL, and under
AUTODOUBLE double the cube (32-bit wrap) and bump the counter while under
the cap.  `roll_die` always yields 1..6, so the drawn values carry no range
check here. -/
def Board.rollOpeningBody (bd : Board) (whiteDie blackDie : Int) : Board :=
  if whiteDie ≠ blackDie then
    let a := if blackDie < whiteDie then Side.WHITE else Side.BLACK
    let d := if blackDie < whiteDie then [whiteDie, blackDie] else [blackDie, whiteDie]
    Board.snapshotTurnStart
      { bd with actor := a, diceLeft := d, phase := Phase.Moving, lastErr := "", steps := [] }
  else if bd.rules.openingDoublePolicy = OpeningDoublePolicy.REROLL then bd
  else if bd.rules.maxOpeningAutoDoubles = 0 ∨
      bd.openingAutoDoubles < bd.rules.maxOpeningAutoDoubles then
    { bd with cubeval := bd.cubeval * 2 % 4294967296
              openingAutoDoubles := bd.openingAutoDoubles + 1 }
  else bd

/-- `Board::rollOpening`'s loop over a prefix of the random draw sequence:
each pair feeds one loop iteration, and the first non-doubles pair ends the
loop.  (The C++ loop keeps drawing until that happens; a run of the model on
any finite prefix of the stream reproduces the state it passes through.) -/
def Board.rollOpeningDraws (bd : Board) : List (Int × Int) → Board
  | [] => bd
  | (w, b) :: rest =>
    if w ≠ b then bd.rollOpeningBody w b
    else (bd.rollOpeningBody w b).rollOpeningDraws rest

/-- `Board::rollOpening`, determinized by the drawn pairs; `none` models the
wrong-phase `throw` (board.cpp line 139). -/
def Board.rollOpening (bd : Board) (draws : List (Int × Int)) : Option Board :=
  if bd.phase ≠ Phase.OpeningRoll then none
  else some (bd.rollOpeningDraws draws)

/-- `Board::setDice`.  `none` models the three `throw`s (game over / wrong
phase / dice out of range), which leave the board untouched. -/
def Board.setDice (bd : Board) (d1 d2 : Int) : Option Board :=
  if bd.result.over then none
  else if bd.phase ≠ Phase.AwaitingRoll then none
  else if d1 < 1 ∨ 6 < d1 ∨ d2 < 1 ∨ 6 < d2 then none
  else
    let dl := if d1 = d2 then [d1, d1, d1, d1] else [d1, d2]
    some (Board.snapshotTurnStart
      { bd with diceLeft := dl, phase := Phase.Moving, lastErr := "", steps := [] })

/-- `Board::applyStep`. -/
def Board.applyStep (bd : Board) (fromPt pip : Int) : Bool × Board :=
  if bd.result.over then (false, { bd with lastErr := "applyStep: game over" })
  else if bd.phase ≠ Phase.Moving then (false, { bd with lastErr := "applyStep: not in Moving phase" })
  else if bd.diceLeft = [] then (false, { bd with lastErr := "applyStep: no dice remaining" })
  else if ¬ pip ∈ bd.diceLeft then (false, { bd with lastErr := "applyStep: pip not available" })
  else
    match applyCore bd.state bd.actor fromPt pip with
    | Except.error e => (false, { bd with lastErr := e })
    | Except.ok (s, st) =>
      (true, { bd with
               state := s
               steps := bd.steps ++ [st]
               diceLeft := bd.diceLeft.erase pip
               lastErr := "" })

/-- `Board::undoStep`. -/
def Board.undoStep (bd : Board) : Bool × Board :=
  if bd.result.over then (false, bd)
  else if bd.phase ≠ Phase.Moving then (false, bd)
  else
    match bd.steps.getLast? with
    | none => (false, bd)
    | some st =>
      (true, { bd with
               steps := bd.steps.dropLast
               state := undoCore bd.state bd.actor st
               diceLeft := bd.diceLeft ++ [st.pip]
               lastErr := "" })

/-- `Board::commitTurn`. -/
def Board.commitTurn (bd : Board) : Bool × Board :=
  if bd.result.over then (false, { bd with lastErr := "commitTurn: game over" })
  else if bd.phase ≠ Phase.Moving then
    (false, { bd with lastErr := "commitTurn: not in Moving phase" })
  else if bd.steps = [] then
    if 0 < maxPlayableDice bd.turnStart bd.turnStartActor bd.turnStartDice then
      (false, { bd with lastErr := "commitTurn: at least one legal move exists" })
    else
      (true, { bd with
               diceLeft := []
               phase := Phase.AwaitingRoll
               actor := opponent bd.actor
               lastErr := "" })
  else
    let maxUse := maxPlayableDice bd.turnStart bd.turnStartActor bd.turnStartDice
    if bd.steps.length < maxUse then
      (false, { bd with lastErr := "commitTurn: must use maximum number of dice" })
    else if maxUse = 1 ∧ bd.turnStartDice.length = 2 ∧
        bd.turnStartDice.getD 0 0 ≠ bd.turnStartDice.getD 1 0 ∧
        (bd.steps.headD {}).pip ≠ max (bd.turnStartDice.getD 0 0) (bd.turnStartDice.getD 1 0) then
      (false, { bd with lastErr := "commitTurn: only one die playable; must use the higher die" })
    else
      (true, { bd with
               diceLeft := []
               steps := []
               phase := Phase.AwaitingRoll
               actor := opponent bd.actor
               lastErr := "" })

/-- `Board::offerCube`. -/
def Board.offerCube (bd : Board) : Bool × Board :=
  if bd.result.over then (false, { bd with lastErr := "offerCube: game over" })
  else if bd.phase ≠ Phase.AwaitingRoll then
    (false, { bd with lastErr := "offerCube: only before rolling" })
  else if bd.cubePendingFrom ≠ Side.NONE then
    (false, { bd with lastErr := "offerCube: offer already pending" })
  else if ¬ (bd.cubeholder = Side.NONE ∨ bd.cubeholder = bd.actor) then
    (false, { bd with lastErr := "offerCube: you do not own the cube" })
  else
    (true, { bd with cubePendingFrom := bd.actor, phase := Phase.CubeOffered, lastErr := "" })

/-- `Board::takeCube` (`_cubeval <<= 1` on the 32-bit `unsigned` wraps
modulo `2 ^ 32`). -/
def Board.takeCube (bd : Board) : Bool × Board :=
  if bd.result.over then (false, { bd with lastErr := "takeCube: game over" })
  else if bd.phase ≠ Phase.CubeOffered then
    (false, { bd with lastErr := "takeCube: no offer pending" })
  else
    (true, { bd with
             cubeval := bd.cubeval * 2 % 4294967296
             cubeholder := opponent bd.cubePendingFrom
             cubePendingFrom := Side.NONE
             phase := Phase.AwaitingRoll
             lastErr := "" })

/-- `Board::dropCube`. -/
def Board.dropCube (bd : Board) : Bool × Board :=
  if bd.result.over then (false, { bd with lastErr := "dropCube: game over" })
  else if bd.phase ≠ Phase.CubeOffered then
    (false, { bd with lastErr := "dropCube: no offer pending" })
  else
    (true, { bd with
             result := { over := true, winner := bd.cubePendingFrom,
                         finalCube := bd.cubeval, resigned := true }
             cubePendingFrom := Side.NONE
             lastErr := "" })

/-- `Board::countAt`. -/
def Board.countAt (bd : Board) (s : Side) (point : Int) : Nat :=
  if point < 1 ∨ 24 < point then 0
  else if pointCount bd.state point = 0 then 0
  else if pointSide bd.state point = s then pointCount bd.state point
  else 0

/-- `Board::countBar`. -/
def Board.countBar (bd : Board) (s : Side) : Nat :=
  match s with
  | Side.WHITE => bd.state.wbar
  | Side.BLACK => bd.state.bbar
  | Side.NONE => 0

/-- `Board::countOff`. -/
def Board.countOff (bd : Board) (s : Side) : Nat :=
  match s with
  | Side.WHITE => bd.state.woff
  | Side.BLACK => bd.state.boff
  | Side.NONE => 0

/-- `MatchConfig` from `server/match.hpp`. -/
structure MatchConfig where
  length_points : Nat := 1
  continuous : Bool := false
deriving DecidableEq, Repr

/-- `GameStub` from `server/match.hpp`. -/
structure GameStub where
  suspended : Bool := false
deriving DecidableEq, Repr

/-- `PlayerRef` from `server/match.hpp`. -/
structure PlayerRef where
  id : String
  name : String
deriving DecidableEq, Repr

/-- `MatchSeat` from `server/match.hpp` (the observer set as a list of ids). -/
structure MatchSeat where
  white : Option PlayerRef := none
  black : Option PlayerRef := none
  observers : List String := []
deriving DecidableEq, Repr

/-- `Match` from `server/match.hpp` (`broadcast` only logs and is stateless). -/
structure Match where
  id : String
  name : String
  cfg : MatchConfig := {}
  seats : MatchSeat := {}
  game : GameStub := {}
deriving DecidableEq, Repr

/-- The registry's `by_name_` map, modelled as an association list. -/
structure MatchRegistry where
  by_name_ : List (String × Match) := []
deriving DecidableEq, Repr

/-- Map lookup (`by_name_.find(name)`); `none` models the null pointer. -/
def MatchRegistry.find (reg : MatchRegistry) (name : String) : Option Match :=
  (reg.by_name_.find? (fun e => e.1 = name)).map (fun e => e.2)

/-- `MatchRegistry::ensure_`: return the existing match or create, store and
return a fresh one. -/
def MatchRegistry.ensure_ (reg : MatchRegistry) (name : String)
    (length_points : Nat) (continuous : Bool) : Match × MatchRegistry :=
  match reg.find name with
  | some m => (m, reg)
  | none =>
    let m : Match := { id := name, name := name,
                       cfg := { length_points := length_points, continuous := continuous } }
    (m, { by_name_ := reg.by_name_ ++ [(name, m)] })

/-- `MatchRegistry::create`: canonicalize `length_points == 0` to continuous
play, then `ensure_` (the logging `broadcast` has no state effect). -/
def MatchRegistry.create (reg : MatchRegistry) (name : String)
    (length_points : Nat) (continuous : Bool) : Match × MatchRegistry :=
  let continuous := if length_points = 0 then true else continuous
  reg.ensure_ name length_points continuous


/-! ### List helper lemmas -/

theorem set_getD_self : ∀ (l : List Nat) (i : Nat), i < l.length → l.set i (l.getD i 0) = l
  | a :: t, 0, _ => by simp [List.getD]
  | a :: t, i + 1, h => by
    simp only [List.set, List.getD, List.getElem?_cons_succ]
    exact congrArg (a :: ·) (set_getD_self t i (by simpa using h))
  | [], i, h => by simp at h

theorem sum_set : ∀ (l : List Nat) (i : Nat) (a : Nat), i < l.length →
    (l.set i a).sum + l.getD i 0 = l.sum + a
  | x :: t, 0, a, _ => by simp [List.getD]; omega
  | x :: t, i + 1, a, h => by
    have ih := sum_set t i a (by simpa using h)
    simp only [List.set, List.sum_cons]
    have hg : (x :: t).getD (i + 1) 0 = t.getD i 0 := by simp [List.getD]
    rw [hg]; omega
  | [], i, a, h => by simp at h

theorem getD_set_self (l : List Nat) (i : Nat) (a : Nat) (h : i < l.length) :
    (l.set i a).getD i 0 = a := by
  simp [List.getD, List.getElem?_set_self, h]

theorem getD_set_ne (l : List Nat) (i j : Nat) (a : Nat) (h : i ≠ j) :
    (l.set i a).getD j 0 = l.getD j 0 := by
  simp [List.getD, List.getElem?_set_ne h]

/-! ### The state invariant -/

/-- Invariant of the occupancy: well-formed count arrays, checker
conservation for both sides, and single ownership of every point. -/
structure SInv (s : SimpleState) : Prop where
  wlen : s.w.length = 25
  blen : s.b.length = 25
  w0 : s.w.getD 0 0 = 0
  b0 : s.b.getD 0 0 = 0
  wsum : s.w.sum + s.wbar + s.woff = 15
  bsum : s.b.sum + s.bbar + s.boff = 15
  owner : ∀ p, p < 25 → s.w.getD p 0 = 0 ∨ s.b.getD p 0 = 0

theorem sInv_startState : SInv startState := by
  constructor <;> decide


theorem sidePointCount_ne_zero (s : SimpleState) (sd : Side) (f : Int) :
    sidePointCount s sd f ≠ 0 ↔ inBoard f ∧ pointCount s f ≠ 0 ∧ pointSide s f = sd := by
  unfold sidePointCount
  split
  · simp_all
  · split
    · simp_all
    · split <;> simp_all

/-- Elimination principle for `applyLand`. -/
theorem applyLand_ok_elim {s1 : SimpleState} {ms actor : Side} {f toPt p : Int}
    {s' : SimpleState} {st : Step}
    (h : applyLand s1 ms actor f toPt p = Except.ok (s', st)) :
    st.fromPt = f ∧ st.pip = p ∧ st.toPt = toPt ∧ st.entered = decide (f = 0) ∧
    ((¬ inBoard toPt ∧ st.borneOff = true ∧ st.hit = false ∧ s' = pushOff s1 actor) ∨
     (inBoard toPt ∧ st.borneOff = false ∧
      ((st.hit = true ∧ pointSide s1 toPt ≠ Side.NONE ∧ pointSide s1 toPt ≠ actor ∧
        pointCount s1 toPt = 1 ∧
        s' = pushToPoint (pushToBar (popFromPoint s1 toPt).1 (popFromPoint s1 toPt).2) ms toPt) ∨
       (st.hit = false ∧
        ¬ (pointSide s1 toPt ≠ Side.NONE ∧ pointSide s1 toPt ≠ actor ∧ pointCount s1 toPt = 1) ∧
        s' = pushToPoint s1 ms toPt)))) := by
  unfold applyLand at h
  split at h
  · next hnin =>
    injection h with h
    injection h with hs hst
    subst hs; subst hst
    refine ⟨rfl, rfl, rfl, rfl, Or.inl ⟨hnin, rfl, rfl, rfl⟩⟩
  · next hin =>
    split at h
    · next hhit =>
      injection h with h
      injection h with hs hst
      subst hs; subst hst
      exact ⟨rfl, rfl, rfl, rfl, Or.inr ⟨not_not.mp hin, rfl,
        Or.inl ⟨rfl, hhit.1, hhit.2.1, hhit.2.2, rfl⟩⟩⟩
    · next hnohit =>
      injection h with h
      injection h with hs hst
      subst hs; subst hst
      exact ⟨rfl, rfl, rfl, rfl, Or.inr ⟨not_not.mp hin, rfl,
        Or.inr ⟨rfl, hnohit, rfl⟩⟩⟩



/-- Elimination principle for a successful `applyCore`: the popped
intermediate state with its legality conditions, and the landing data. -/
theorem applyCore_ok_elim {s : SimpleState} {actor : Side} {f p : Int}
    {s' : SimpleState} {st : Step}
    (h : applyCore s actor f p = Except.ok (s', st)) :
    ∃ s1 : SimpleState,
      (actor = Side.WHITE ∨ actor = Side.BLACK) ∧
      ((f = 0 ∧
        s1 = (if actor = Side.WHITE then { s with wbar := s.wbar - 1 }
              else { s with bbar := s.bbar - 1 }) ∧
        (if actor = Side.WHITE then 0 < s.wbar else 0 < s.bbar)) ∨
       (f ≠ 0 ∧ inBoard f ∧ pointSide s f = actor ∧ 0 < pointCount s f ∧
        s1 = (popFromPoint s f).1 ∧
        (if actor = Side.WHITE then s.wbar = 0 else s.bbar = 0))) ∧
      (¬ inBoard (destPoint actor f p) →
        allInHome s actor ∧
        (actor = Side.WHITE → (f = p ∨ ¬ anyFurtherFromHome s Side.WHITE f)) ∧
        (actor = Side.BLACK → (f = 25 - p ∨ ¬ anyFurtherFromHome s Side.BLACK f))) ∧
      (inBoard (destPoint actor f p) →
        ¬ (pointSide s (destPoint actor f p) ≠ Side.NONE ∧
           pointSide s (destPoint actor f p) ≠ actor ∧
           2 ≤ pointCount s (destPoint actor f p))) ∧
      applyLand s1 actor actor f (destPoint actor f p) p = Except.ok (s', st) := by
  unfold applyCore at h
  split at h
  · exact Except.noConfusion h
  next h1 =>
  split at h
  · exact Except.noConfusion h
  next h2 =>
  split at h
  · exact Except.noConfusion h
  next h3 =>
  split at h
  · exact Except.noConfusion h
  next h4 =>
  unfold applyDest at h
  split at h
  · exact Except.noConfusion h
  next h5 =>
  split at h
  · exact Except.noConfusion h
  next h6 =>
  split at h
  · exact Except.noConfusion h
  next h7 =>
  split at h
  · exact Except.noConfusion h
  next h8 =>
  -- destination conditions hold
  push_neg at h5 h6 h7 h8
  have hdest1 : ¬ inBoard (destPoint actor f p) →
      allInHome s actor ∧
      (actor = Side.WHITE → (f = p ∨ ¬ anyFurtherFromHome s Side.WHITE f)) ∧
      (actor = Side.BLACK → (f = 25 - p ∨ ¬ anyFurtherFromHome s Side.BLACK f)) := by
    intro hnin
    refine ⟨h6 hnin, fun hw => ?_, fun hb => ?_⟩
    · rcases Classical.em (f = p) with he | he
      · exact Or.inl he
      · exact Or.inr (h7 hnin hw he)
    · rcases Classical.em (f = 25 - p) with he | he
      · exact Or.inl he
      · refine Or.inr (h8 hnin ?_ he)
        rw [hb]; intro hc; exact Side.noConfusion hc
  have hdest2 : inBoard (destPoint actor f p) →
      ¬ (pointSide s (destPoint actor f p) ≠ Side.NONE ∧
         pointSide s (destPoint actor f p) ≠ actor ∧
         2 ≤ pointCount s (destPoint actor f p)) := by
    intro hin hc
    have := h5 hin hc.1 hc.2.1
    omega
  -- pop cases
  unfold applyMove at h
  split at h
  · next hf0 =>
    subst hf0
    split at h
    · -- actor = WHITE
      split at h
      · exact Except.noConfusion h
      · next hwbar =>
        refine ⟨{ s with wbar := s.wbar - 1 }, Or.inl rfl, Or.inl ⟨rfl, by simp, by simp; omega⟩,
          hdest1, hdest2, h⟩
    · -- actor = BLACK
      split at h
      · exact Except.noConfusion h
      · next hbbar =>
        refine ⟨{ s with bbar := s.bbar - 1 }, Or.inr rfl, Or.inl ⟨rfl, by simp, by simp; omega⟩,
          hdest1, hdest2, h⟩
    · exact Except.noConfusion h
  · next hf0 =>
    -- pop from a point; the source checks give inBoard f and ownership
    have hf : f ≠ 0 := hf0
    have hin : inBoard f := by
      by_contra hc
      exact h3 ⟨hf, hc⟩
    have hspc : sidePointCount s actor f ≠ 0 := fun hc => h4 ⟨hf, hc⟩
    rw [sidePointCount_ne_zero] at hspc
    have hps : pointSide s f = actor := hspc.2.2
    have hact : actor = Side.WHITE ∨ actor = Side.BLACK := by
      cases hact : pointSide s f with
      | WHITE => rw [hact] at hps; exact Or.inl hps.symm
      | BLACK => rw [hact] at hps; exact Or.inr hps.symm
      | NONE =>
        exfalso
        have hpc : pointCount s f ≠ 0 := hspc.2.1
        unfold pointCount at hpc
        rw [if_pos hin] at hpc
        unfold pointSide at hact
        rw [if_neg (not_not.mpr hin)] at hact
        split at hact
        · exact Side.noConfusion hact
        · split at hact
          · exact Side.noConfusion hact
          · omega
    have hbar : if actor = Side.WHITE then s.wbar = 0 else s.bbar = 0 := by
      rcases hact with hw | hb
      · subst hw
        simp only [if_pos rfl]
        by_contra hc
        exact h1 ⟨Or.inl ⟨rfl, Nat.pos_of_ne_zero hc⟩, hf⟩
      · subst hb
        rw [if_neg (by intro hc; exact Side.noConfusion hc)]
        by_contra hc
        exact h1 ⟨Or.inr ⟨rfl, Nat.pos_of_ne_zero hc⟩, hf⟩
    have hmover : (popFromPoint s f).2 = actor := by
      unfold popFromPoint
      rw [hps]
      rcases hact with hw | hb
      · subst hw; rfl
      · subst hb; rfl
    refine ⟨(popFromPoint s f).1, hact,
      Or.inr ⟨hf, hin, hps, Nat.pos_of_ne_zero hspc.2.1, rfl, hbar⟩, hdest1, hdest2, ?_⟩
    rw [← hmover] at h ⊢
    exact h


theorem pointSide_eq_white_iff (s : SimpleState) (f : Int) :
    pointSide s f = Side.WHITE ↔ inBoard f ∧ 0 < s.wAt f.toNat := by
  unfold pointSide
  split
  · simp_all
  · split
    · simp_all
    · split <;> simp_all

theorem pointSide_eq_black_iff (s : SimpleState) (f : Int) :
    pointSide s f = Side.BLACK ↔ inBoard f ∧ s.wAt f.toNat = 0 ∧ 0 < s.bAt f.toNat := by
  unfold pointSide
  split
  · simp_all
  · split
    · simp_all
      omega
    · split <;> simp_all

theorem inBoard_toNat {q : Int} (h : inBoard q) :
    1 ≤ q.toNat ∧ q.toNat ≤ 24 ∧ (q.toNat : Int) = q := by
  obtain ⟨h1, h2⟩ := h
  omega

theorem pointSide_cases (s : SimpleState) (q : Int) (h : inBoard q) :
    (pointSide s q = Side.WHITE ∧ 0 < s.wAt q.toNat) ∨
    (pointSide s q = Side.BLACK ∧ s.wAt q.toNat = 0 ∧ 0 < s.bAt q.toNat) ∨
    (pointSide s q = Side.NONE ∧ s.wAt q.toNat = 0 ∧ s.bAt q.toNat = 0) := by
  unfold pointSide
  rw [if_neg (not_not.mpr h)]
  split
  · next hw => exact Or.inl ⟨rfl, hw⟩
  · split
    · next hw hb => exact Or.inr (Or.inl ⟨rfl, by omega, hb⟩)
    · next hw hb => exact Or.inr (Or.inr ⟨rfl, by omega, by omega⟩)

theorem pointCount_eq (s : SimpleState) (q : Int) (h : inBoard q) :
    pointCount s q = s.wAt q.toNat + s.bAt q.toNat := by
  unfold pointCount; rw [if_pos h]


theorem wAt_eq (s : SimpleState) (q : Nat) : s.wAt q = s.w.getD q 0 := rfl
theorem bAt_eq (s : SimpleState) (q : Nat) : s.bAt q = s.b.getD q 0 := rfl

/-- `applyCore` preserves the state invariant. -/
theorem applyCore_sInv {s : SimpleState} {actor : Side} {f p : Int}
    {s' : SimpleState} {st : Step}
    (h : applyCore s actor f p = Except.ok (s', st)) (hInv : SInv s) : SInv s' := by
  obtain ⟨s1, hact, hpop, hoff, hblk, hland⟩ := applyCore_ok_elim h
  obtain ⟨-, -, -, -, hcases⟩ := applyLand_ok_elim hland
  rcases hact with hW | hB
  · subst hW
    -- facts about s1 in the two pop cases
    have hs1 :
        s1.b = s.b ∧ s1.bbar = s.bbar ∧ s1.woff = s.woff ∧ s1.boff = s.boff ∧
        s1.w.length = 25 ∧ s1.w.getD 0 0 = 0 ∧
        s1.w.sum + 1 = s.w.sum + (if f = 0 then 1 else 0) ∧
        s1.wbar + (if f = 0 then 1 else 0) = s.wbar ∧
        (∀ q, q < 25 → s1.w.getD q 0 ≤ s.w.getD q 0) := by
      rcases hpop with ⟨hf0, hs1, hbar⟩ | ⟨hf0, hinf, hps, hpc, hs1, hbar0⟩
      · rw [if_pos rfl] at hs1 hbar
        subst hs1; subst hf0
        refine ⟨rfl, rfl, rfl, rfl, hInv.wlen, hInv.w0, by simp, by simp; omega,
          fun q _ => le_refl _⟩
      · rw [if_pos rfl] at hbar0
        obtain ⟨hft1, hft2, -⟩ := inBoard_toNat hinf
        have hwpos : 0 < s.wAt f.toNat := ((pointSide_eq_white_iff s f).mp hps).2
        rw [wAt_eq] at hwpos
        unfold popFromPoint at hs1
        rw [hps] at hs1
        dsimp only at hs1
        rw [wAt_eq] at hs1
        subst hs1
        rw [if_neg hf0]
        refine ⟨rfl, rfl, rfl, rfl, by simp [hInv.wlen], ?_, ?_, by dsimp only; omega, ?_⟩
        · dsimp only
          rw [getD_set_ne _ _ _ _ (by omega)]; exact hInv.w0
        · dsimp only
          have := sum_set s.w f.toNat (s.w.getD f.toNat 0 - 1) (by rw [hInv.wlen]; omega)
          omega
        · intro q hq
          dsimp only
          by_cases hqf : f.toNat = q
          · subst hqf
            rw [getD_set_self _ _ _ (by rw [hInv.wlen]; omega)]
            omega
          · rw [getD_set_ne _ _ _ _ hqf]
    obtain ⟨hb, hbbar, hwoff, hboff, hwlen, hw0, hwsum, hwbar, hwle⟩ := hs1
    rcases hcases with ⟨hnin, -, -, hs'⟩ | ⟨hin, -, hhit⟩
    · -- bear off
      subst hs'
      have hbear := hoff hnin
      have hbar0 : s.wbar = 0 := hbear.1.1
      have hf0 : f ≠ 0 := by
        intro hc
        rw [if_pos hc] at hwbar
        rcases hpop with ⟨-, -, hbar⟩ | ⟨hne, -⟩
        · rw [if_pos rfl] at hbar; omega
        · exact hne hc
      rw [if_neg hf0] at hwsum hwbar
      unfold pushOff
      dsimp only
      constructor <;> dsimp only
      · exact hwlen
      · rw [hb]; exact hInv.blen
      · exact hw0
      · rw [hb]; exact hInv.b0
      · have := hInv.wsum; omega
      · rw [hb, hbbar, hboff]; exact hInv.bsum
      · intro q hq
        rw [hb]
        rcases hInv.owner q hq with hq1 | hq2
        · left; have := hwle q hq; omega
        · right; exact hq2
    · -- in-board landing
      obtain ⟨ht1, ht2, ht3⟩ := inBoard_toNat hin
      rcases hhit with ⟨-, hns, hnw, hc1, hs'⟩ | ⟨-, hnc, hs'⟩
      · -- hit: destination holds a single black checker (on s1)
        have hpsb : pointSide s1 (destPoint Side.WHITE f p) = Side.BLACK := by
          rcases pointSide_cases s1 _ hin with ⟨hx, -⟩ | ⟨hx, -⟩ | ⟨hx, -⟩
          · exact absurd hx hnw
          · exact hx
          · exact absurd hx hns
        have hbw : s1.w.getD (destPoint Side.WHITE f p).toNat 0 = 0 ∧
            s1.b.getD (destPoint Side.WHITE f p).toNat 0 = 1 := by
          have h1 := (pointSide_eq_black_iff s1 _).mp hpsb
          rw [pointCount_eq s1 _ hin] at hc1
          rw [wAt_eq, bAt_eq] at h1
          rw [wAt_eq, bAt_eq] at hc1
          exact ⟨h1.2.1, by omega⟩
        subst hs'
        unfold popFromPoint
        rw [hpsb]
        unfold pushToBar pushToPoint
        dsimp only
        simp only [SimpleState.wAt, SimpleState.bAt]
        constructor <;> dsimp only
        · simp [hwlen]
        · simp [hb, hInv.blen]
        · rw [getD_set_ne _ _ _ _ (by omega)]; exact hw0
        · rw [getD_set_ne _ _ _ _ (by omega), hb]; exact hInv.b0
        · have hset := sum_set s1.w (destPoint Side.WHITE f p).toNat
            (s1.w.getD (destPoint Side.WHITE f p).toNat 0 + 1) (by rw [hwlen]; omega)
          have hw15 := hInv.wsum
          by_cases hf0 : f = 0
          · rw [if_pos hf0] at hwsum hwbar
            omega
          · rw [if_neg hf0] at hwsum hwbar
            omega
        · have hset := sum_set s1.b (destPoint Side.WHITE f p).toNat
            (s1.b.getD (destPoint Side.WHITE f p).toNat 0 - 1) (by rw [hb, hInv.blen]; omega)
          have hb15 := hInv.bsum
          rw [hb] at hset hbw ⊢
          omega
        · intro q hq
          by_cases hqt : (destPoint Side.WHITE f p).toNat = q
          · subst hqt
            right
            rw [getD_set_self _ _ _ (by rw [hb, hInv.blen]; omega)]
            omega
          · rw [getD_set_ne _ _ _ _ hqt, getD_set_ne _ _ _ _ hqt, hb]
            rcases hInv.owner q hq with hq1 | hq2
            · left; have := hwle q hq; omega
            · right; exact hq2
      · -- no hit: destination holds no black checker on s1
        have hbz : s1.b.getD (destPoint Side.WHITE f p).toNat 0 = 0 := by
          rcases pointSide_cases s1 _ hin with ⟨hx, hw⟩ | ⟨hx, hw, hbp⟩ | ⟨hx, hw, hbp⟩
          · rw [wAt_eq] at hw
            have hsw : 0 < s.w.getD (destPoint Side.WHITE f p).toNat 0 := by
              have := hwle (destPoint Side.WHITE f p).toNat (by omega)
              omega
            rcases hInv.owner (destPoint Side.WHITE f p).toNat (by omega) with hq1 | hq2
            · omega
            · rw [hb]; exact hq2
          · exfalso
            rw [wAt_eq] at hw
            rw [bAt_eq] at hbp
            have hb2 : 2 ≤ s1.b.getD (destPoint Side.WHITE f p).toNat 0 := by
              by_cases h1 : s1.b.getD (destPoint Side.WHITE f p).toNat 0 = 1
              · refine absurd ⟨?_, ?_, ?_⟩ hnc
                · rw [hx]; intro hc; exact Side.noConfusion hc
                · rw [hx]; intro hc; exact Side.noConfusion hc
                · rw [pointCount_eq s1 _ hin, wAt_eq, bAt_eq]; omega
              · omega
            have hsbeq : s.b.getD (destPoint Side.WHITE f p).toNat 0 =
                s1.b.getD (destPoint Side.WHITE f p).toNat 0 := by rw [hb]
            have hw0' : s.w.getD (destPoint Side.WHITE f p).toNat 0 = 0 := by
              rcases hInv.owner (destPoint Side.WHITE f p).toNat (by omega) with hq1 | hq2
              · exact hq1
              · omega
            refine hblk hin ⟨?_, ?_, ?_⟩
            · rw [(pointSide_eq_black_iff s _).mpr ⟨hin, by rw [wAt_eq]; exact hw0',
                by rw [bAt_eq]; omega⟩]
              intro hc; exact Side.noConfusion hc
            · rw [(pointSide_eq_black_iff s _).mpr ⟨hin, by rw [wAt_eq]; exact hw0',
                by rw [bAt_eq]; omega⟩]
              intro hc; exact Side.noConfusion hc
            · rw [pointCount_eq s _ hin, wAt_eq, bAt_eq]; omega
          · rw [bAt_eq] at hbp; exact hbp
        subst hs'
        unfold pushToPoint
        dsimp only
        simp only [SimpleState.wAt, SimpleState.bAt]
        constructor <;> dsimp only
        · simp [hwlen]
        · rw [hb]; exact hInv.blen
        · rw [getD_set_ne _ _ _ _ (by omega)]; exact hw0
        · rw [hb]; exact hInv.b0
        · have hset := sum_set s1.w (destPoint Side.WHITE f p).toNat
            (s1.w.getD (destPoint Side.WHITE f p).toNat 0 + 1) (by rw [hwlen]; omega)
          have hw15 := hInv.wsum
          by_cases hf0 : f = 0
          · rw [if_pos hf0] at hwsum hwbar; omega
          · rw [if_neg hf0] at hwsum hwbar; omega
        · rw [hb, hbbar, hboff]; exact hInv.bsum
        · intro q hq
          by_cases hqt : (destPoint Side.WHITE f p).toNat = q
          · subst hqt
            right
            exact hbz
          · rw [getD_set_ne _ _ _ _ hqt, hb]
            rcases hInv.owner q hq with hq1 | hq2
            · left; have := hwle q hq; omega
            · right; exact hq2
  · subst hB
    -- facts about s1 in the two pop cases (black actor)
    have hs1 :
        s1.w = s.w ∧ s1.wbar = s.wbar ∧ s1.woff = s.woff ∧ s1.boff = s.boff ∧
        s1.b.length = 25 ∧ s1.b.getD 0 0 = 0 ∧
        s1.b.sum + 1 = s.b.sum + (if f = 0 then 1 else 0) ∧
        s1.bbar + (if f = 0 then 1 else 0) = s.bbar ∧
        (∀ q, q < 25 → s1.b.getD q 0 ≤ s.b.getD q 0) := by
      rcases hpop with ⟨hf0, hs1, hbar⟩ | ⟨hf0, hinf, hps, hpc, hs1, hbar0⟩
      · rw [if_neg (by intro hc; exact Side.noConfusion hc)] at hs1 hbar
        subst hs1; subst hf0
        refine ⟨rfl, rfl, rfl, rfl, hInv.blen, hInv.b0, by simp, by simp; omega,
          fun q _ => le_refl _⟩
      · rw [if_neg (by intro hc; exact Side.noConfusion hc)] at hbar0
        obtain ⟨hft1, hft2, -⟩ := inBoard_toNat hinf
        have hbpos : 0 < s.bAt f.toNat := ((pointSide_eq_black_iff s f).mp hps).2.2
        rw [bAt_eq] at hbpos
        unfold popFromPoint at hs1
        rw [hps] at hs1
        dsimp only at hs1
        rw [bAt_eq] at hs1
        subst hs1
        rw [if_neg hf0]
        refine ⟨rfl, rfl, rfl, rfl, by simp [hInv.blen], ?_, ?_, by dsimp only; omega, ?_⟩
        · dsimp only
          rw [getD_set_ne _ _ _ _ (by omega)]; exact hInv.b0
        · dsimp only
          have := sum_set s.b f.toNat (s.b.getD f.toNat 0 - 1) (by rw [hInv.blen]; omega)
          omega
        · intro q hq
          dsimp only
          by_cases hqf : f.toNat = q
          · subst hqf
            rw [getD_set_self _ _ _ (by rw [hInv.blen]; omega)]
            omega
          · rw [getD_set_ne _ _ _ _ hqf]
    obtain ⟨hw, hwbar', hwoff, hboff, hblen, hb0, hbsum, hbbar', hble⟩ := hs1
    rcases hcases with ⟨hnin, -, -, hs'⟩ | ⟨hin, -, hhit⟩
    · -- bear off
      subst hs'
      have hbear := hoff hnin
      have hbar0 : s.bbar = 0 := hbear.1.1
      have hf0 : f ≠ 0 := by
        intro hc
        rw [if_pos hc] at hbbar'
        rcases hpop with ⟨-, -, hbar⟩ | ⟨hne, -⟩
        · rw [if_neg (by intro hc2; exact Side.noConfusion hc2)] at hbar; omega
        · exact hne hc
      rw [if_neg hf0] at hbsum hbbar'
      unfold pushOff
      dsimp only
      constructor <;> dsimp only
      · rw [hw]; exact hInv.wlen
      · exact hblen
      · rw [hw]; exact hInv.w0
      · exact hb0
      · rw [hw, hwbar', hwoff]; exact hInv.wsum
      · have := hInv.bsum; omega
      · intro q hq
        rw [hw]
        rcases hInv.owner q hq with hq1 | hq2
        · left; exact hq1
        · right; have := hble q hq; omega
    · -- in-board landing (black actor)
      obtain ⟨ht1, ht2, ht3⟩ := inBoard_toNat hin
      rcases hhit with ⟨-, hns, hnb, hc1, hs'⟩ | ⟨-, hnc, hs'⟩
      · -- hit: destination holds a single white checker (on s1)
        have hpsw : pointSide s1 (destPoint Side.BLACK f p) = Side.WHITE := by
          rcases pointSide_cases s1 _ hin with ⟨hx, -⟩ | ⟨hx, -⟩ | ⟨hx, -⟩
          · exact hx
          · exact absurd hx hnb
          · exact absurd hx hns
        have hbw : s1.w.getD (destPoint Side.BLACK f p).toNat 0 = 1 ∧
            s1.b.getD (destPoint Side.BLACK f p).toNat 0 = 0 := by
          have h1 := (pointSide_eq_white_iff s1 _).mp hpsw
          rw [pointCount_eq s1 _ hin] at hc1
          rw [wAt_eq] at h1
          rw [wAt_eq, bAt_eq] at hc1
          exact ⟨by omega, by omega⟩
        subst hs'
        unfold popFromPoint
        rw [hpsw]
        unfold pushToBar pushToPoint
        dsimp only
        simp only [SimpleState.wAt, SimpleState.bAt]
        constructor <;> dsimp only
        · simp [hw, hInv.wlen]
        · simp [hblen]
        · rw [getD_set_ne _ _ _ _ (by omega), hw]; exact hInv.w0
        · rw [getD_set_ne _ _ _ _ (by omega)]; exact hb0
        · have hset := sum_set s1.w (destPoint Side.BLACK f p).toNat
            (s1.w.getD (destPoint Side.BLACK f p).toNat 0 - 1) (by rw [hw, hInv.wlen]; omega)
          have hw15 := hInv.wsum
          rw [hw] at hset hbw ⊢
          omega
        · have hset := sum_set s1.b (destPoint Side.BLACK f p).toNat
            (s1.b.getD (destPoint Side.BLACK f p).toNat 0 + 1) (by rw [hblen]; omega)
          have hb15 := hInv.bsum
          by_cases hf0 : f = 0
          · rw [if_pos hf0] at hbsum hbbar'
            omega
          · rw [if_neg hf0] at hbsum hbbar'
            omega
        · intro q hq
          by_cases hqt : (destPoint Side.BLACK f p).toNat = q
          · subst hqt
            left
            rw [getD_set_self _ _ _ (by rw [hw, hInv.wlen]; omega)]
            omega
          · rw [getD_set_ne _ _ _ _ hqt, getD_set_ne _ _ _ _ hqt, hw]
            rcases hInv.owner q hq with hq1 | hq2
            · left; exact hq1
            · right; have := hble q hq; omega
      · -- no hit: destination holds no white checker on s1
        have hwz : s1.w.getD (destPoint Side.BLACK f p).toNat 0 = 0 := by
          rcases pointSide_cases s1 _ hin with ⟨hx, hwp⟩ | ⟨hx, hwp, hbp⟩ | ⟨hx, hwp, hbp⟩
          · exfalso
            rw [wAt_eq] at hwp
            have hsw : 0 < s.w.getD (destPoint Side.BLACK f p).toNat 0 := by rw [← hw]; omega
            have hsb0 : s.b.getD (destPoint Side.BLACK f p).toNat 0 = 0 := by
              rcases hInv.owner (destPoint Side.BLACK f p).toNat (by omega) with hq1 | hq2
              · omega
              · exact hq2
            have hs1b0 : s1.b.getD (destPoint Side.BLACK f p).toNat 0 = 0 := by
              have := hble (destPoint Side.BLACK f p).toNat (by omega)
              omega
            have hw2 : 2 ≤ s1.w.getD (destPoint Side.BLACK f p).toNat 0 := by
              by_cases h1 : s1.w.getD (destPoint Side.BLACK f p).toNat 0 = 1
              · refine absurd ⟨?_, ?_, ?_⟩ hnc
                · rw [hx]; intro hc; exact Side.noConfusion hc
                · rw [hx]; intro hc; exact Side.noConfusion hc
                · rw [pointCount_eq s1 _ hin, wAt_eq, bAt_eq]; omega
              · omega
            refine hblk hin ⟨?_, ?_, ?_⟩
            · rw [(pointSide_eq_white_iff s _).mpr ⟨hin, by rw [wAt_eq]; omega⟩]
              intro hc; exact Side.noConfusion hc
            · rw [(pointSide_eq_white_iff s _).mpr ⟨hin, by rw [wAt_eq]; omega⟩]
              intro hc; exact Side.noConfusion hc
            · rw [pointCount_eq s _ hin, wAt_eq, bAt_eq]
              rw [hw] at hw2
              omega
          · rw [wAt_eq] at hwp; exact hwp
          · rw [wAt_eq] at hwp; exact hwp
        subst hs'
        unfold pushToPoint
        dsimp only
        simp only [SimpleState.wAt, SimpleState.bAt]
        constructor <;> dsimp only
        · rw [hw]; exact hInv.wlen
        · simp [hblen]
        · rw [hw]; exact hInv.w0
        · rw [getD_set_ne _ _ _ _ (by omega)]; exact hb0
        · rw [hw, hwbar', hwoff]; exact hInv.wsum
        · have hset := sum_set s1.b (destPoint Side.BLACK f p).toNat
            (s1.b.getD (destPoint Side.BLACK f p).toNat 0 + 1) (by rw [hblen]; omega)
          have hb15 := hInv.bsum
          by_cases hf0 : f = 0
          · rw [if_pos hf0] at hbsum hbbar'; omega
          · rw [if_neg hf0] at hbsum hbbar'; omega
        · intro q hq
          by_cases hqt : (destPoint Side.BLACK f p).toNat = q
          · subst hqt
            left
            rw [hw] at hwz
            rw [hw]
            exact hwz
          · rw [getD_set_ne _ _ _ _ hqt, hw]
            rcases hInv.owner q hq with hq1 | hq2
            · left; exact hq1
            · right; have := hble q hq; omega



theorem SimpleState.ext' {a b : SimpleState} (hw : a.w = b.w) (hb : a.b = b.b)
    (h1 : a.wbar = b.wbar) (h2 : a.bbar = b.bbar) (h3 : a.woff = b.woff)
    (h4 : a.boff = b.boff) : a = b := by
  cases a; cases b; simp_all

/-- Collapse of a decrement followed by the matching increment. -/
theorem set_dec_inc (l : List Nat) (i : Nat) (h : i < l.length) (hpos : 0 < l.getD i 0) :
    (l.set i (l.getD i 0 - 1)).set i ((l.set i (l.getD i 0 - 1)).getD i 0 + 1) = l := by
  rw [getD_set_self _ _ _ h, List.set_set]
  have : l.getD i 0 - 1 + 1 = l.getD i 0 := by omega
  rw [this]
  exact set_getD_self l i h

/-- Collapse of an increment followed by the matching decrement. -/
theorem set_inc_dec (l : List Nat) (i : Nat) (h : i < l.length) :
    (l.set i (l.getD i 0 + 1)).set i ((l.set i (l.getD i 0 + 1)).getD i 0 - 1) = l := by
  rw [getD_set_self _ _ _ h, List.set_set]
  have : l.getD i 0 + 1 - 1 = l.getD i 0 := by omega
  rw [this]
  exact set_getD_self l i h

theorem side_bw_false : (Side.BLACK = Side.WHITE) = False := by simp

theorem side_wb_false : (Side.WHITE = Side.BLACK) = False := by simp

/-- Applying a step and then undoing it restores the occupancy exactly. -/
theorem applyCore_undo {s : SimpleState} {actor : Side} {f p : Int}
    {s' : SimpleState} {st : Step}
    (h : applyCore s actor f p = Except.ok (s', st)) (hInv : SInv s) :
    undoCore s' actor st = s := by
  obtain ⟨s1, hact, hpop, hoff, hblk, hland⟩ := applyCore_ok_elim h
  obtain ⟨stf, stt, stp, sth, ste, stb⟩ := st
  obtain ⟨hf1, hf2, hf3, hf4, hcases⟩ := applyLand_ok_elim hland
  dsimp only at hf1 hf2 hf3 hf4 hcases
  subst hf1; subst hf2; subst hf3; subst hf4
  rcases hact with hW | hB
  all_goals (first | subst hW | subst hB)
  all_goals (
    rcases hpop with ⟨hf0, hs1, hbar⟩ | ⟨hf0, hinf, hps, hpc, hs1, hbar0⟩ <;>
    [ (first
        | rw [if_pos rfl] at hs1 hbar
        | rw [if_neg (by intro hc; exact Side.noConfusion hc)] at hs1 hbar);
      (first
        | rw [if_pos rfl] at hbar0
        | rw [if_neg (by intro hc; exact Side.noConfusion hc)] at hbar0)])
  · -- white, entered from the bar
    subst hs1; subst hf0
    rcases hcases with ⟨hnin, hbo, hhit0, hs'⟩ | ⟨hin, hbo, hhit⟩
    · exact absurd ((hoff hnin).1.1) (by omega)
    · obtain ⟨ht1, ht2, -⟩ := inBoard_toNat hin
      rcases hhit with ⟨hhit1, hns, hnw, hc1, hs'⟩ | ⟨hhit1, hnc, hs'⟩ <;>
        [skip; skip] <;> subst hhit1 <;> subst hbo <;> subst hs'
      · -- hit a lone black checker
        have hpsb : pointSide { s with wbar := s.wbar - 1 } (destPoint Side.WHITE 0 stp) =
            Side.BLACK := by
          rcases pointSide_cases { s with wbar := s.wbar - 1 } _ hin with
            ⟨hx, -⟩ | ⟨hx, -⟩ | ⟨hx, -⟩
          · exact absurd hx hnw
          · exact hx
          · exact absurd hx hns
        have hbw := (pointSide_eq_black_iff _ _).mp hpsb
        rw [wAt_eq, bAt_eq] at hbw
        rw [pointCount_eq _ _ hin, wAt_eq, bAt_eq] at hc1
        dsimp only at hbw hc1
        simp only [undoCore, popFromPoint, pushToBar, pushToPoint, pushOff, opponent,
          SimpleState.wAt, SimpleState.bAt, hpsb, hin, if_true, if_false,
          Bool.false_eq_true, ite_true, ite_false, side_bw_false, side_wb_false,
          not_true, not_false_iff, decide_True, eq_self_iff_true]
        refine SimpleState.ext' ?_ ?_ ?_ ?_ rfl rfl <;> dsimp only
        · exact set_inc_dec s.w _ (by rw [hInv.wlen]; omega)
        · exact set_dec_inc s.b _ (by rw [hInv.blen]; omega) (by omega)
        · omega
        · omega
      · -- plain landing
        simp only [undoCore, popFromPoint, pushToBar, pushToPoint, pushOff, opponent,
          SimpleState.wAt, SimpleState.bAt, hin, if_true, if_false,
          Bool.false_eq_true, ite_true, ite_false, side_bw_false, side_wb_false,
          not_true, not_false_iff, decide_True, eq_self_iff_true]
        refine SimpleState.ext' ?_ rfl ?_ rfl rfl rfl <;> dsimp only
        · exact set_inc_dec s.w _ (by rw [hInv.wlen]; omega)
        · omega
  · -- white, moved from a point
    obtain ⟨hft1, hft2, -⟩ := inBoard_toNat hinf
    have hwpos : 0 < s.w.getD stf.toNat 0 := (pointSide_eq_white_iff s stf).mp hps |>.2
    unfold popFromPoint at hs1
    rw [hps] at hs1
    dsimp only at hs1
    rw [wAt_eq] at hs1
    subst hs1
    have hdec : decide (stf = 0) = false := decide_eq_false hf0
    rcases hcases with ⟨hnin, hbo, hhit0, hs'⟩ | ⟨hin, hbo, hhit⟩
    · -- bear off
      subst hbo; subst hhit0; subst hs'
      simp only [undoCore, popFromPoint, pushToBar, pushToPoint, pushOff, opponent,
        SimpleState.wAt, SimpleState.bAt, hdec, if_true, if_false,
        Bool.false_eq_true, ite_true, ite_false, side_bw_false, side_wb_false,
        not_true, not_false_iff, eq_self_iff_true]
      refine SimpleState.ext' ?_ rfl rfl rfl ?_ rfl <;> dsimp only
      · exact set_dec_inc s.w _ (by rw [hInv.wlen]; omega) hwpos
      · omega
    · obtain ⟨ht1, ht2, -⟩ := inBoard_toNat hin
      rcases hhit with ⟨hhit1, hns, hnw, hc1, hs'⟩ | ⟨hhit1, hnc, hs'⟩ <;>
        [skip; skip] <;> subst hhit1 <;> subst hbo <;> subst hs'
      · -- hit a lone black checker
        have hpsb : pointSide { s with w := s.w.set stf.toNat (s.w.getD stf.toNat 0 - 1) }
            (destPoint Side.WHITE stf stp) = Side.BLACK := by
          rcases pointSide_cases { s with w := s.w.set stf.toNat (s.w.getD stf.toNat 0 - 1) } _ hin
            with ⟨hx, -⟩ | ⟨hx, -⟩ | ⟨hx, -⟩
          · exact absurd hx hnw
          · exact hx
          · exact absurd hx hns
        have hbw := (pointSide_eq_black_iff _ _).mp hpsb
        rw [wAt_eq, bAt_eq] at hbw
        rw [pointCount_eq _ _ hin, wAt_eq, bAt_eq] at hc1
        dsimp only at hbw hc1
        simp only [undoCore, popFromPoint, pushToBar, pushToPoint, pushOff, opponent,
          SimpleState.wAt, SimpleState.bAt, hpsb, hin, hdec, if_true, if_false,
          Bool.false_eq_true, ite_true, ite_false, side_bw_false, side_wb_false,
          not_true, not_false_iff, eq_self_iff_true]
        refine SimpleState.ext' ?_ ?_ rfl ?_ rfl rfl <;> dsimp only
        · rw [set_inc_dec (s.w.set stf.toNat (s.w.getD stf.toNat 0 - 1)) _
            (by rw [List.length_set, hInv.wlen]; omega)]
          exact set_dec_inc s.w _ (by rw [hInv.wlen]; omega) hwpos
        · exact set_dec_inc s.b _ (by rw [hInv.blen]; omega) (by omega)
        · omega
      · -- plain landing
        simp only [undoCore, popFromPoint, pushToBar, pushToPoint, pushOff, opponent,
          SimpleState.wAt, SimpleState.bAt, hin, hdec, if_true, if_false,
          Bool.false_eq_true, ite_true, ite_false, side_bw_false, side_wb_false,
          not_true, not_false_iff, eq_self_iff_true]
        refine SimpleState.ext' ?_ rfl rfl rfl rfl rfl
        dsimp only
        rw [set_inc_dec (s.w.set stf.toNat (s.w.getD stf.toNat 0 - 1)) _
          (by rw [List.length_set, hInv.wlen]; omega)]
        exact set_dec_inc s.w _ (by rw [hInv.wlen]; omega) hwpos
  · -- black, entered from the bar
    subst hs1; subst hf0
    rcases hcases with ⟨hnin, hbo, hhit0, hs'⟩ | ⟨hin, hbo, hhit⟩
    · exact absurd ((hoff hnin).1.1) (by omega)
    · obtain ⟨ht1, ht2, -⟩ := inBoard_toNat hin
      rcases hhit with ⟨hhit1, hns, hnb, hc1, hs'⟩ | ⟨hhit1, hnc, hs'⟩ <;>
        [skip; skip] <;> subst hhit1 <;> subst hbo <;> subst hs'
      · -- hit a lone white checker
        have hpsw : pointSide { s with bbar := s.bbar - 1 } (destPoint Side.BLACK 0 stp) =
            Side.WHITE := by
          rcases pointSide_cases { s with bbar := s.bbar - 1 } _ hin with
            ⟨hx, -⟩ | ⟨hx, -⟩ | ⟨hx, -⟩
          · exact hx
          · exact absurd hx hnb
          · exact absurd hx hns
        have hww := (pointSide_eq_white_iff _ _).mp hpsw
        rw [wAt_eq] at hww
        rw [pointCount_eq _ _ hin, wAt_eq, bAt_eq] at hc1
        dsimp only at hww hc1
        simp only [undoCore, popFromPoint, pushToBar, pushToPoint, pushOff, opponent,
          SimpleState.wAt, SimpleState.bAt, hpsw, hin, if_true, if_false,
          Bool.false_eq_true, ite_true, ite_false, side_bw_false, side_wb_false,
          not_true, not_false_iff, decide_True, eq_self_iff_true]
        refine SimpleState.ext' ?_ ?_ ?_ ?_ rfl rfl <;> dsimp only
        · exact set_dec_inc s.w _ (by rw [hInv.wlen]; omega) (by omega)
        · exact set_inc_dec s.b _ (by rw [hInv.blen]; omega)
        · omega
        · omega
      · -- plain landing
        simp only [undoCore, popFromPoint, pushToBar, pushToPoint, pushOff, opponent,
          SimpleState.wAt, SimpleState.bAt, hin, if_true, if_false,
          Bool.false_eq_true, ite_true, ite_false, side_bw_false, side_wb_false,
          not_true, not_false_iff, decide_True, eq_self_iff_true]
        refine SimpleState.ext' rfl ?_ rfl ?_ rfl rfl <;> dsimp only
        · exact set_inc_dec s.b _ (by rw [hInv.blen]; omega)
        · omega
  · -- black, moved from a point
    obtain ⟨hft1, hft2, -⟩ := inBoard_toNat hinf
    have hbpos : 0 < s.b.getD stf.toNat 0 := ((pointSide_eq_black_iff s stf).mp hps).2.2
    unfold popFromPoint at hs1
    rw [hps] at hs1
    dsimp only at hs1
    rw [bAt_eq] at hs1
    subst hs1
    have hdec : decide (stf = 0) = false := decide_eq_false hf0
    rcases hcases with ⟨hnin, hbo, hhit0, hs'⟩ | ⟨hin, hbo, hhit⟩
    · -- bear off
      subst hbo; subst hhit0; subst hs'
      simp only [undoCore, popFromPoint, pushToBar, pushToPoint, pushOff, opponent,
        SimpleState.wAt, SimpleState.bAt, hdec, if_true, if_false,
        Bool.false_eq_true, ite_true, ite_false, side_bw_false, side_wb_false,
        not_true, not_false_iff, eq_self_iff_true]
      refine SimpleState.ext' rfl ?_ rfl rfl rfl ?_ <;> dsimp only
      · exact set_dec_inc s.b _ (by rw [hInv.blen]; omega) hbpos
      · omega
    · obtain ⟨ht1, ht2, -⟩ := inBoard_toNat hin
      rcases hhit with ⟨hhit1, hns, hnb, hc1, hs'⟩ | ⟨hhit1, hnc, hs'⟩ <;>
        [skip; skip] <;> subst hhit1 <;> subst hbo <;> subst hs'
      · -- hit a lone white checker
        have hpsw : pointSide { s with b := s.b.set stf.toNat (s.b.getD stf.toNat 0 - 1) }
            (destPoint Side.BLACK stf stp) = Side.WHITE := by
          rcases pointSide_cases { s with b := s.b.set stf.toNat (s.b.getD stf.toNat 0 - 1) } _ hin
            with ⟨hx, -⟩ | ⟨hx, -⟩ | ⟨hx, -⟩
          · exact hx
          · exact absurd hx hnb
          · exact absurd hx hns
        have hww := (pointSide_eq_white_iff _ _).mp hpsw
        rw [wAt_eq] at hww
        rw [pointCount_eq _ _ hin, wAt_eq, bAt_eq] at hc1
        dsimp only at hww hc1
        simp only [undoCore, popFromPoint, pushToBar, pushToPoint, pushOff, opponent,
          SimpleState.wAt, SimpleState.bAt, hpsw, hin, hdec, if_true, if_false,
          Bool.false_eq_true, ite_true, ite_false, side_bw_false, side_wb_false,
          not_true, not_false_iff, eq_self_iff_true]
        refine SimpleState.ext' ?_ ?_ ?_ rfl rfl rfl <;> dsimp only
        · exact set_dec_inc s.w _ (by rw [hInv.wlen]; omega) (by omega)
        · rw [set_inc_dec (s.b.set stf.toNat (s.b.getD stf.toNat 0 - 1)) _
            (by rw [List.length_set, hInv.blen]; omega)]
          exact set_dec_inc s.b _ (by rw [hInv.blen]; omega) hbpos
        · omega
      · -- plain landing
        simp only [undoCore, popFromPoint, pushToBar, pushToPoint, pushOff, opponent,
          SimpleState.wAt, SimpleState.bAt, hin, hdec, if_true, if_false,
          Bool.false_eq_true, ite_true, ite_false, side_bw_false, side_wb_false,
          not_true, not_false_iff, eq_self_iff_true]
        refine SimpleState.ext' rfl ?_ rfl rfl rfl rfl
        dsimp only
        rw [set_inc_dec (s.b.set stf.toNat (s.b.getD stf.toNat 0 - 1)) _
          (by rw [List.length_set, hInv.blen]; omega)]
        exact set_dec_inc s.b _ (by rw [hInv.blen]; omega) hbpos



/-- Re-apply one recorded step, checking that `applyCore` succeeds and
reproduces exactly the recorded step. -/
def replayStep (actor : Side) (s : SimpleState) (st : Step) : Option SimpleState :=
  match applyCore s actor st.fromPt st.pip with
  | Except.ok (s2, st2) => if st2 = st then some s2 else none
  | Except.error _ => none

/-- Re-play a step log from a snapshot. -/
def replay (actor : Side) : SimpleState → List Step → Option SimpleState
  | s, [] => some s
  | s, st :: rest =>
    match replayStep actor s st with
    | some s2 => replay actor s2 rest
    | none => none

theorem replay_append (actor : Side) (l1 l2 : List Step) :
    ∀ s, replay actor s (l1 ++ l2) =
      (replay actor s l1).bind (fun s2 => replay actor s2 l2) := by
  induction l1 with
  | nil => intro s; simp [replay]
  | cons st rest ih =>
    intro s
    simp only [List.cons_append, replay]
    cases replayStep actor s st with
    | none => simp
    | some s2 => simp [ih s2]

theorem replay_sInv (actor : Side) (l : List Step) :
    ∀ s s2, replay actor s l = some s2 → SInv s → SInv s2 := by
  induction l with
  | nil => intro s s2 h hInv; simp [replay] at h; rwa [← h]
  | cons st rest ih =>
    intro s s2 h hInv
    simp only [replay] at h
    cases hrs : replayStep actor s st with
    | none => rw [hrs] at h; exact Option.noConfusion h
    | some s1 =>
      rw [hrs] at h
      unfold replayStep at hrs
      cases hac : applyCore s actor st.fromPt st.pip with
      | error e => rw [hac] at hrs; exact Option.noConfusion hrs
      | ok r =>
        rw [hac] at hrs
        obtain ⟨s1', st'⟩ := r
        dsimp only at hrs
        split at hrs
        · injection hrs with hrs'
          exact ih s1 s2 h (hrs' ▸ applyCore_sInv hac hInv)
        · exact Option.noConfusion hrs



theorem ownerAt_eq_pointSide (s : SimpleState) (q : Int) : ownerAt s q = pointSide s q := by
  unfold ownerAt pointSide
  by_cases h : inBoard q
  · have hb : (1 : Int) ≤ q ∧ q ≤ 24 := h
    rw [if_neg (show ¬ (q < 1 ∨ 24 < q) by omega), if_neg (not_not.mpr h)]
  · have hb : ¬ ((1 : Int) ≤ q ∧ q ≤ 24) := h
    rw [if_pos (show q < 1 ∨ 24 < q by omega), if_pos h]

theorem dfsCountAt_eq {s : SimpleState} (hInv : SInv s) (q : Int) (hin : inBoard q) :
    dfsCountAt s q = pointCount s q := by
  obtain ⟨h1, h2, -⟩ := inBoard_toNat hin
  have hq : ¬ (q < 1 ∨ 24 < q) := by obtain ⟨ha, hb⟩ := hin; omega
  have howner := hInv.owner q.toNat (by omega)
  unfold dfsCountAt
  rw [if_neg hq, ownerAt_eq_pointSide, pointCount_eq s q hin]
  rcases pointSide_cases s q hin with ⟨hx, hw⟩ | ⟨hx, hw, hb⟩ | ⟨hx, hw, hb⟩ <;> rw [hx] <;>
    simp only [SimpleState.wAt, SimpleState.bAt] at * <;> omega

theorem sidePointCount_white_eq {s : SimpleState} (hInv : SInv s) (q : Int) (hin : inBoard q) :
    sidePointCount s Side.WHITE q = s.wAt q.toNat := by
  obtain ⟨h1, h2, -⟩ := inBoard_toNat hin
  have howner := hInv.owner q.toNat (by omega)
  unfold sidePointCount
  rw [if_neg (not_not.mpr hin), pointCount_eq s q hin]
  rcases pointSide_cases s q hin with ⟨hx, hw⟩ | ⟨hx, hw, hb⟩ | ⟨hx, hw, hb⟩
  · simp only [SimpleState.wAt, SimpleState.bAt] at *
    rw [if_neg (by omega), if_pos hx]
    omega
  · simp only [SimpleState.wAt, SimpleState.bAt] at *
    rw [if_neg (by omega), if_neg (by rw [hx]; intro hc; exact Side.noConfusion hc)]
    omega
  · simp only [SimpleState.wAt, SimpleState.bAt] at *
    rw [if_pos (by omega)]
    omega

theorem sidePointCount_black_eq {s : SimpleState} (hInv : SInv s) (q : Int) (hin : inBoard q) :
    sidePointCount s Side.BLACK q = s.bAt q.toNat := by
  obtain ⟨h1, h2, -⟩ := inBoard_toNat hin
  have howner := hInv.owner q.toNat (by omega)
  unfold sidePointCount
  rw [if_neg (not_not.mpr hin), pointCount_eq s q hin]
  rcases pointSide_cases s q hin with ⟨hx, hw⟩ | ⟨hx, hw, hb⟩ | ⟨hx, hw, hb⟩
  · simp only [SimpleState.wAt, SimpleState.bAt] at *
    rw [if_neg (by omega), if_neg (by rw [hx]; intro hc; exact Side.noConfusion hc)]
    omega
  · simp only [SimpleState.wAt, SimpleState.bAt] at *
    rw [if_neg (by omega), if_pos hx]
    omega
  · simp only [SimpleState.wAt, SimpleState.bAt] at *
    rw [if_pos (by omega)]
    omega

theorem dfsAnyFurther_white {s : SimpleState} (hInv : SInv s) (q : Int) :
    dfsAnyFurther s Side.WHITE q = true ↔ anyFurtherFromHome s Side.WHITE q := by
  unfold dfsAnyFurther anyFurtherFromHome
  rw [if_pos rfl, if_pos rfl, List.any_eq_true]
  constructor
  · rintro ⟨r, hr, hcond⟩
    rw [Bool.and_eq_true, decide_eq_true_eq, decide_eq_true_eq] at hcond
    refine ⟨r, hr, hcond.1, ?_⟩
    have hin : inBoard (r : Int) := by
      rw [List.mem_range'_1] at hr
      constructor <;> omega
    rw [sidePointCount_white_eq hInv _ hin]
    simpa using hcond.2
  · rintro ⟨r, hr, h1, h2⟩
    refine ⟨r, hr, ?_⟩
    rw [Bool.and_eq_true, decide_eq_true_eq, decide_eq_true_eq]
    have hin : inBoard (r : Int) := by
      rw [List.mem_range'_1] at hr
      constructor <;> omega
    rw [sidePointCount_white_eq hInv _ hin] at h2
    refine ⟨h1, ?_⟩
    simpa using h2

theorem dfsAnyFurther_black {s : SimpleState} (hInv : SInv s) (q : Int) :
    dfsAnyFurther s Side.BLACK q = true ↔ anyFurtherFromHome s Side.BLACK q := by
  unfold dfsAnyFurther anyFurtherFromHome
  rw [if_neg (by intro hc; exact Side.noConfusion hc),
    if_neg (by intro hc; exact Side.noConfusion hc), List.any_eq_true]
  constructor
  · rintro ⟨r, hr, hcond⟩
    rw [Bool.and_eq_true, decide_eq_true_eq, decide_eq_true_eq] at hcond
    refine ⟨r, hr, hcond.1, ?_⟩
    have hin : inBoard (r : Int) := by
      rw [List.mem_range'_1] at hr
      constructor <;> omega
    rw [sidePointCount_black_eq hInv _ hin]
    simpa using hcond.2
  · rintro ⟨r, hr, h1, h2⟩
    refine ⟨r, hr, ?_⟩
    rw [Bool.and_eq_true, decide_eq_true_eq, decide_eq_true_eq]
    have hin : inBoard (r : Int) := by
      rw [List.mem_range'_1] at hr
      constructor <;> omega
    rw [sidePointCount_black_eq hInv _ hin] at h2
    refine ⟨h1, ?_⟩
    simpa using h2



theorem foldl_add_congr (g h : Nat → Nat) :
    ∀ (l : List Nat), (∀ x ∈ l, g x = h x) →
      ∀ a : Nat, l.foldl (fun acc x => acc + g x) a = l.foldl (fun acc x => acc + h x) a := by
  intro l
  induction l with
  | nil => intro _ a; rfl
  | cons x rest ih =>
    intro hgh a
    simp only [List.foldl_cons]
    rw [hgh x (by simp)]
    exact ih (fun y hy => hgh y (by simp [hy])) _

set_option maxHeartbeats 1000000 in
theorem dfsAllHome_white {s : SimpleState} (hInv : SInv s) :
    dfsAllHome s Side.WHITE = true ↔ allInHome s Side.WHITE := by
  unfold dfsAllHome allInHome
  rw [if_pos rfl, decide_eq_true_eq]
  have : (List.range' 1 6).foldl (fun a q => a + s.wAt q) 0 =
      (List.range' 1 6).foldl (fun a q => a + sidePointCount s Side.WHITE (q : Int)) 0 := by
    refine foldl_add_congr (fun q => s.wAt q)
      (fun q => sidePointCount s Side.WHITE (q : Int)) (List.range' 1 6) (fun x hx => ?_) 0
    rw [List.mem_range'_1] at hx
    have hin : inBoard (x : Int) := ⟨by omega, by omega⟩
    dsimp only
    rw [sidePointCount_white_eq hInv _ hin]
    congr 1
  rw [this]

set_option maxHeartbeats 1000000 in
theorem dfsAllHome_black {s : SimpleState} (hInv : SInv s) :
    dfsAllHome s Side.BLACK = true ↔ allInHome s Side.BLACK := by
  unfold dfsAllHome allInHome
  rw [if_neg (by intro hc; exact Side.noConfusion hc), decide_eq_true_eq]
  have : (List.range' 19 6).foldl (fun a q => a + s.bAt q) 0 =
      (List.range' 19 6).foldl (fun a q => a + sidePointCount s Side.BLACK (q : Int)) 0 := by
    refine foldl_add_congr (fun q => s.bAt q)
      (fun q => sidePointCount s Side.BLACK (q : Int)) (List.range' 19 6) (fun x hx => ?_) 0
    rw [List.mem_range'_1] at hx
    have hin : inBoard (x : Int) := ⟨by omega, by omega⟩
    dsimp only
    rw [sidePointCount_black_eq hInv _ hin]
    congr 1
  rw [this]


end BG

namespace BG

theorem pointSide_wbar (s : SimpleState) (k : Nat) (x : Int) :
    pointSide { s with wbar := k } x = pointSide s x := rfl

theorem pointSide_bbar (s : SimpleState) (k : Nat) (x : Int) :
    pointSide { s with bbar := k } x = pointSide s x := rfl

theorem pointCount_wbar (s : SimpleState) (k : Nat) (x : Int) :
    pointCount { s with wbar := k } x = pointCount s x := rfl

theorem pointCount_bbar (s : SimpleState) (k : Nat) (x : Int) :
    pointCount { s with bbar := k } x = pointCount s x := rfl

theorem pointSide_set_w_ne (s : SimpleState) (i : Nat) (v : Nat) (x : Int)
    (hne : i ≠ x.toNat) :
    pointSide { s with w := s.w.set i v } x = pointSide s x := by
  unfold pointSide
  simp only [SimpleState.wAt, SimpleState.bAt]
  simp only [getD_set_ne _ _ _ _ hne]

theorem pointSide_set_b_ne (s : SimpleState) (i : Nat) (v : Nat) (x : Int)
    (hne : i ≠ x.toNat) :
    pointSide { s with b := s.b.set i v } x = pointSide s x := by
  unfold pointSide
  simp only [SimpleState.wAt, SimpleState.bAt]
  simp only [getD_set_ne _ _ _ _ hne]

theorem pointCount_set_w_ne (s : SimpleState) (i : Nat) (v : Nat) (x : Int)
    (hne : i ≠ x.toNat) :
    pointCount { s with w := s.w.set i v } x = pointCount s x := by
  unfold pointCount
  simp only [SimpleState.wAt, SimpleState.bAt]
  simp only [getD_set_ne _ _ _ _ hne]

theorem pointCount_set_b_ne (s : SimpleState) (i : Nat) (v : Nat) (x : Int)
    (hne : i ≠ x.toNat) :
    pointCount { s with b := s.b.set i v } x = pointCount s x := by
  unfold pointCount
  simp only [SimpleState.wAt, SimpleState.bAt]
  simp only [getD_set_ne _ _ _ _ hne]
end BG

namespace BG

theorem side_ww_true : (Side.WHITE = Side.WHITE) = True := by simp

theorem side_bb_true : (Side.BLACK = Side.BLACK) = True := by simp

/-- A successful `applyStep` move corresponds to a move that `dfsMax` also
enumerates, with the same resulting snapshot. -/
theorem applyCore_dfs {s : SimpleState} {actor : Side} {f p : Int}
    {s' : SimpleState} {st : Step}
    (h : applyCore s actor f p = Except.ok (s', st)) (hInv : SInv s)
    (hp1 : 1 ≤ p) (hp6 : p ≤ 6) :
    f ∈ dfsFroms s actor ∧ dfsTry s actor p f = some s' := by
  obtain ⟨s1, hact, hpop, hoff, hblk, hland⟩ := applyCore_ok_elim h
  obtain ⟨hf1, hf2, hf3, hf4, hcases⟩ := applyLand_ok_elim hland
  rcases hact with hW | hB
  · subst hW
    rcases hpop with ⟨hf0, hs1, hbar⟩ | ⟨hf0, hinf, hps, hpc, hs1, hbar0⟩
    · -- entered from the bar
      rw [if_pos rfl] at hs1 hbar
      subst hf0; subst hs1
      have hto : destPoint Side.WHITE 0 p = 25 - p := by
        unfold destPoint; rw [if_pos rfl, if_pos rfl]
      have hin : inBoard (destPoint Side.WHITE 0 p) := by
        rw [hto]; exact ⟨by omega, by omega⟩
      constructor
      · unfold dfsFroms
        simp only [if_pos rfl, decide_eq_true hbar, ite_true, List.mem_singleton]
      · rcases hcases with ⟨hnin, -, -, -⟩ | ⟨-, -, hhit⟩
        · exact absurd hin hnin
        unfold dfsTry
        rw [if_pos rfl]
        rw [show (if (0:Int) = 0 then 25 - p else 0 - p) = destPoint Side.WHITE 0 p by
          rw [hto, if_pos rfl]]
        rw [if_pos (show (1:Int) ≤ destPoint Side.WHITE 0 p ∧ destPoint Side.WHITE 0 p ≤ 24
          from hin)]
        rw [ownerAt_eq_pointSide, dfsCountAt_eq hInv _ hin]
        have hpsEq : pointSide { s with wbar := s.wbar - 1 } (destPoint Side.WHITE 0 p) =
            pointSide s (destPoint Side.WHITE 0 p) := pointSide_wbar s _ _
        have hpcEq : pointCount { s with wbar := s.wbar - 1 } (destPoint Side.WHITE 0 p) =
            pointCount s (destPoint Side.WHITE 0 p) := pointCount_wbar s _ _
        rcases hhit with ⟨-, hns, hnw, hc1, hs'⟩ | ⟨-, hnc, hs'⟩ <;> subst hs'
        · -- hit
          rw [if_neg (by
            rw [hpsEq] at hns hnw
            rw [hpcEq] at hc1
            intro hc
            omega)]
          have hflag : decide (pointSide s (destPoint Side.WHITE 0 p) ≠ Side.NONE ∧
              pointSide s (destPoint Side.WHITE 0 p) ≠ Side.WHITE ∧
              pointCount s (destPoint Side.WHITE 0 p) = 1) = true := by
            rw [decide_eq_true_eq]
            exact ⟨hpsEq ▸ hns, hpsEq ▸ hnw, hpcEq ▸ hc1⟩
          rw [hflag]
          congr 1
          have hpsb : pointSide { s with wbar := s.wbar - 1 } (destPoint Side.WHITE 0 p) =
              Side.BLACK := by
            rcases pointSide_cases { s with wbar := s.wbar - 1 } _ hin with
              ⟨hx, -⟩ | ⟨hx, -⟩ | ⟨hx, -⟩
            · exact absurd hx hnw
            · exact hx
            · exact absurd hx hns
          unfold popFromPoint
          rw [hpsb]
          simp only [dfsApplyMove, pushToBar, pushToPoint,
            SimpleState.wAt, SimpleState.bAt, if_pos rfl, ite_true, ite_false,
            if_pos (show (1:Int) ≤ destPoint Side.WHITE 0 p ∧ destPoint Side.WHITE 0 p ≤ 24
              from hin)]
        · -- plain landing
          rw [if_neg (by
            rw [hpsEq] at hnc
            rw [hpcEq] at hnc
            intro hc
            have h2 := hblk hin
            rcases Nat.lt_or_ge (pointCount s (destPoint Side.WHITE 0 p)) 2 with hlt | hge
            · exact hnc ⟨hc.1, hc.2.1, by omega⟩
            · exact h2 ⟨hc.1, hc.2.1, hge⟩)]
          have hflag : decide (pointSide s (destPoint Side.WHITE 0 p) ≠ Side.NONE ∧
              pointSide s (destPoint Side.WHITE 0 p) ≠ Side.WHITE ∧
              pointCount s (destPoint Side.WHITE 0 p) = 1) = false := by
            rw [decide_eq_false_iff_not]
            intro hc
            rw [hpsEq] at hnc
            rw [hpcEq] at hnc
            exact hnc hc
          rw [hflag]
          congr 1
          simp only [dfsApplyMove, pushToBar, pushToPoint,
            SimpleState.wAt, SimpleState.bAt, if_pos rfl, ite_true, ite_false,
            Bool.false_eq_true, if_false,
            if_pos (show (1:Int) ≤ destPoint Side.WHITE 0 p ∧ destPoint Side.WHITE 0 p ≤ 24
              from hin)]
    · -- moved from a point
      rw [if_pos rfl] at hbar0
      obtain ⟨hft1, hft2, hftc⟩ := inBoard_toNat hinf
      have hwpos : 0 < s.wAt f.toNat := ((pointSide_eq_white_iff s f).mp hps).2
      unfold popFromPoint at hs1
      rw [hps] at hs1
      dsimp only at hs1
      rw [wAt_eq] at hs1
      subst hs1
      have hto : destPoint Side.WHITE f p = f - p := by
        unfold destPoint; rw [if_pos rfl, if_neg hf0]
      constructor
      · unfold dfsFroms
        simp only [side_ww_true, if_true, hbar0, decide_eq_false (by omega : ¬ (0 < 0)),
          Bool.false_eq_true, ite_false, if_false]
        have hmem : f.toNat ∈ (List.range' 1 24).filter (fun q => decide (0 < s.wAt q)) :=
          List.mem_filter.mpr ⟨by rw [List.mem_range'_1]; omega, by
            rw [decide_eq_true_eq]; exact hwpos⟩
        have hmm := List.mem_map_of_mem (fun q : Nat => (q : Int)) hmem
        simpa only [hftc] using hmm
      · unfold dfsTry
        simp only [side_ww_true, if_true]
        rw [show (if f = 0 then 25 - p else f - p) = destPoint Side.WHITE f p by
          rw [hto, if_neg hf0]]
        by_cases hin : inBoard (destPoint Side.WHITE f p)
        · -- in-board landing
          obtain ⟨ht1, ht2, htc⟩ := inBoard_toNat hin
          have htne : (destPoint Side.WHITE f p).toNat ≠ f.toNat := by
            rw [hto] at htc
            omega
          rcases hcases with ⟨hnin, -, -, -⟩ | ⟨-, -, hhit⟩
          · exact absurd hin hnin
          rw [if_pos (show (1:Int) ≤ destPoint Side.WHITE f p ∧ destPoint Side.WHITE f p ≤ 24
            from hin)]
          rw [ownerAt_eq_pointSide, dfsCountAt_eq hInv _ hin]
          have hpsEq : pointSide { s with w := s.w.set f.toNat (s.w.getD f.toNat 0 - 1) }
              (destPoint Side.WHITE f p) = pointSide s (destPoint Side.WHITE f p) :=
            pointSide_set_w_ne s _ _ _ (fun hc => htne hc.symm)
          have hpcEq : pointCount { s with w := s.w.set f.toNat (s.w.getD f.toNat 0 - 1) }
              (destPoint Side.WHITE f p) = pointCount s (destPoint Side.WHITE f p) :=
            pointCount_set_w_ne s _ _ _ (fun hc => htne hc.symm)
          rcases hhit with ⟨-, hns, hnw, hc1, hs'⟩ | ⟨-, hnc, hs'⟩ <;> subst hs'
          · -- hit
            rw [if_neg (by
              rw [hpsEq] at hns hnw
              rw [hpcEq] at hc1
              intro hc
              omega)]
            have hflag : decide (pointSide s (destPoint Side.WHITE f p) ≠ Side.NONE ∧
                pointSide s (destPoint Side.WHITE f p) ≠ Side.WHITE ∧
                pointCount s (destPoint Side.WHITE f p) = 1) = true := by
              rw [decide_eq_true_eq]
              exact ⟨hpsEq ▸ hns, hpsEq ▸ hnw, hpcEq ▸ hc1⟩
            rw [hflag]
            congr 1
            have hpsb : pointSide { s with w := s.w.set f.toNat (s.w.getD f.toNat 0 - 1) }
                (destPoint Side.WHITE f p) = Side.BLACK := by
              rcases pointSide_cases { s with w := s.w.set f.toNat (s.w.getD f.toNat 0 - 1) } _
                hin with ⟨hx, -⟩ | ⟨hx, -⟩ | ⟨hx, -⟩
              · exact absurd hx hnw
              · exact hx
              · exact absurd hx hns
            unfold popFromPoint
            rw [hpsb]
            simp only [dfsApplyMove, pushToBar, pushToPoint,
              SimpleState.wAt, SimpleState.bAt, side_ww_true, if_true, ite_true, ite_false,
              if_neg hf0,
              if_pos (show (1:Int) ≤ destPoint Side.WHITE f p ∧ destPoint Side.WHITE f p ≤ 24
                from hin)]
          · -- plain landing
            rw [if_neg (by
              rw [hpsEq, hpcEq] at hnc
              intro hc
              have h2 := hblk hin
              rcases Nat.lt_or_ge (pointCount s (destPoint Side.WHITE f p)) 2 with hlt | hge
              · exact hnc ⟨hc.1, hc.2.1, by omega⟩
              · exact h2 ⟨hc.1, hc.2.1, hge⟩)]
            have hflag : decide (pointSide s (destPoint Side.WHITE f p) ≠ Side.NONE ∧
                pointSide s (destPoint Side.WHITE f p) ≠ Side.WHITE ∧
                pointCount s (destPoint Side.WHITE f p) = 1) = false := by
              rw [decide_eq_false_iff_not]
              intro hc
              rw [hpsEq, hpcEq] at hnc
              exact hnc hc
            rw [hflag]
            congr 1
            simp only [dfsApplyMove, pushToBar, pushToPoint,
              SimpleState.wAt, SimpleState.bAt, side_ww_true, if_true, ite_true, ite_false,
              Bool.false_eq_true, if_false, if_neg hf0,
              if_pos (show (1:Int) ≤ destPoint Side.WHITE f p ∧ destPoint Side.WHITE f p ≤ 24
                from hin)]
        · -- bear off
          rcases hcases with ⟨hnin, -, -, hs'⟩ | ⟨hin2, -, -⟩
          swap
          · exact absurd hin2 hin
          subst hs'
          obtain ⟨hhome, hwcond, -⟩ := hoff hnin
          rw [if_neg (show ¬ ((1:Int) ≤ destPoint Side.WHITE f p ∧ destPoint Side.WHITE f p ≤ 24)
            from hin)]
          rw [if_pos ((dfsAllHome_white hInv).mpr hhome)]
          rw [if_pos (show f = p ∨ dfsAnyFurther s Side.WHITE f = false by
            rcases hwcond rfl with he | hnofar
            · exact Or.inl he
            · refine Or.inr ?_
              rw [← Bool.not_eq_true]
              intro hc
              exact hnofar ((dfsAnyFurther_white hInv f).mp hc))]
          congr 1
          simp only [dfsApplyMove, pushOff,
            SimpleState.wAt, SimpleState.bAt, side_ww_true, if_true, ite_true, ite_false,
            if_neg hf0,
            if_neg (show ¬ ((1:Int) ≤ destPoint Side.WHITE f p ∧ destPoint Side.WHITE f p ≤ 24)
              from hin)]
  · subst hB
    rcases hpop with ⟨hf0, hs1, hbar⟩ | ⟨hf0, hinf, hps, hpc, hs1, hbar0⟩
    · -- entered from the bar
      rw [if_neg (show ¬ (Side.BLACK = Side.WHITE) by decide)] at hs1 hbar
      subst hf0; subst hs1
      have hto : destPoint Side.BLACK 0 p = p := by
        unfold destPoint
        rw [if_neg (show ¬ (Side.BLACK = Side.WHITE) by decide), if_pos rfl]
      have hin : inBoard (destPoint Side.BLACK 0 p) := by
        rw [hto]; exact ⟨by omega, by omega⟩
      constructor
      · unfold dfsFroms
        simp only [side_bw_false, if_false, ite_false, decide_eq_true hbar, ite_true,
          List.mem_singleton]
      · rcases hcases with ⟨hnin, -, -, -⟩ | ⟨-, -, hhit⟩
        · exact absurd hin hnin
        unfold dfsTry
        rw [if_neg (show ¬ (Side.BLACK = Side.WHITE) by decide)]
        rw [show (if (0:Int) = 0 then p else 0 + p) = destPoint Side.BLACK 0 p by
          rw [hto, if_pos rfl]]
        rw [if_pos (show (1:Int) ≤ destPoint Side.BLACK 0 p ∧ destPoint Side.BLACK 0 p ≤ 24
          from hin)]
        rw [ownerAt_eq_pointSide, dfsCountAt_eq hInv _ hin]
        have hpsEq : pointSide { s with bbar := s.bbar - 1 } (destPoint Side.BLACK 0 p) =
            pointSide s (destPoint Side.BLACK 0 p) := pointSide_bbar s _ _
        have hpcEq : pointCount { s with bbar := s.bbar - 1 } (destPoint Side.BLACK 0 p) =
            pointCount s (destPoint Side.BLACK 0 p) := pointCount_bbar s _ _
        rcases hhit with ⟨-, hns, hnb, hc1, hs'⟩ | ⟨-, hnc, hs'⟩ <;> subst hs'
        · -- hit
          rw [if_neg (by
            rw [hpsEq] at hns hnb
            rw [hpcEq] at hc1
            intro hc
            omega)]
          have hflag : decide (pointSide s (destPoint Side.BLACK 0 p) ≠ Side.NONE ∧
              pointSide s (destPoint Side.BLACK 0 p) ≠ Side.BLACK ∧
              pointCount s (destPoint Side.BLACK 0 p) = 1) = true := by
            rw [decide_eq_true_eq]
            exact ⟨hpsEq ▸ hns, hpsEq ▸ hnb, hpcEq ▸ hc1⟩
          rw [hflag]
          congr 1
          have hpsw : pointSide { s with bbar := s.bbar - 1 } (destPoint Side.BLACK 0 p) =
              Side.WHITE := by
            rcases pointSide_cases { s with bbar := s.bbar - 1 } _ hin with
              ⟨hx, -⟩ | ⟨hx, -⟩ | ⟨hx, -⟩
            · exact hx
            · exact absurd hx hnb
            · exact absurd hx hns
          unfold popFromPoint
          rw [hpsw]
          simp only [dfsApplyMove, pushToBar, pushToPoint,
            SimpleState.wAt, SimpleState.bAt, side_bw_false, if_false, if_pos rfl, ite_true,
            ite_false,
            if_pos (show (1:Int) ≤ destPoint Side.BLACK 0 p ∧ destPoint Side.BLACK 0 p ≤ 24
              from hin)]
        · -- plain landing
          rw [if_neg (by
            rw [hpsEq] at hnc
            rw [hpcEq] at hnc
            intro hc
            have h2 := hblk hin
            rcases Nat.lt_or_ge (pointCount s (destPoint Side.BLACK 0 p)) 2 with hlt | hge
            · exact hnc ⟨hc.1, hc.2.1, by omega⟩
            · exact h2 ⟨hc.1, hc.2.1, hge⟩)]
          have hflag : decide (pointSide s (destPoint Side.BLACK 0 p) ≠ Side.NONE ∧
              pointSide s (destPoint Side.BLACK 0 p) ≠ Side.BLACK ∧
              pointCount s (destPoint Side.BLACK 0 p) = 1) = false := by
            rw [decide_eq_false_iff_not]
            intro hc
            rw [hpsEq] at hnc
            rw [hpcEq] at hnc
            exact hnc hc
          rw [hflag]
          congr 1
          simp only [dfsApplyMove, pushToBar, pushToPoint,
            SimpleState.wAt, SimpleState.bAt, side_bw_false, if_false, if_pos rfl, ite_true,
            ite_false, Bool.false_eq_true,
            if_pos (show (1:Int) ≤ destPoint Side.BLACK 0 p ∧ destPoint Side.BLACK 0 p ≤ 24
              from hin)]
    · -- moved from a point
      rw [if_neg (show ¬ (Side.BLACK = Side.WHITE) by decide)] at hbar0
      obtain ⟨hft1, hft2, hftc⟩ := inBoard_toNat hinf
      have hbpos : 0 < s.bAt f.toNat := ((pointSide_eq_black_iff s f).mp hps).2.2
      unfold popFromPoint at hs1
      rw [hps] at hs1
      dsimp only at hs1
      rw [bAt_eq] at hs1
      subst hs1
      have hto : destPoint Side.BLACK f p = f + p := by
        unfold destPoint
        rw [if_neg (show ¬ (Side.BLACK = Side.WHITE) by decide), if_neg hf0]
      constructor
      · unfold dfsFroms
        simp only [side_bw_false, if_false, ite_false, hbar0,
          decide_eq_false (by omega : ¬ (0 < 0)), Bool.false_eq_true]
        have hmem : f.toNat ∈ (List.range' 1 24).filter (fun q => decide (0 < s.bAt q)) :=
          List.mem_filter.mpr ⟨by rw [List.mem_range'_1]; omega, by
            rw [decide_eq_true_eq]; exact hbpos⟩
        have hmm := List.mem_map_of_mem (fun q : Nat => (q : Int)) hmem
        simpa only [hftc] using hmm
      · unfold dfsTry
        simp only [side_bw_false, if_false, ite_false]
        rw [show (if f = 0 then p else f + p) = destPoint Side.BLACK f p by
          rw [hto, if_neg hf0]]
        by_cases hin : inBoard (destPoint Side.BLACK f p)
        · -- in-board landing
          obtain ⟨ht1, ht2, htc⟩ := inBoard_toNat hin
          have htne : (destPoint Side.BLACK f p).toNat ≠ f.toNat := by
            rw [hto] at htc
            omega
          rcases hcases with ⟨hnin, -, -, -⟩ | ⟨-, -, hhit⟩
          · exact absurd hin hnin
          rw [if_pos (show (1:Int) ≤ destPoint Side.BLACK f p ∧ destPoint Side.BLACK f p ≤ 24
            from hin)]
          rw [ownerAt_eq_pointSide, dfsCountAt_eq hInv _ hin]
          have hpsEq : pointSide { s with b := s.b.set f.toNat (s.b.getD f.toNat 0 - 1) }
              (destPoint Side.BLACK f p) = pointSide s (destPoint Side.BLACK f p) :=
            pointSide_set_b_ne s _ _ _ (fun hc => htne hc.symm)
          have hpcEq : pointCount { s with b := s.b.set f.toNat (s.b.getD f.toNat 0 - 1) }
              (destPoint Side.BLACK f p) = pointCount s (destPoint Side.BLACK f p) :=
            pointCount_set_b_ne s _ _ _ (fun hc => htne hc.symm)
          rcases hhit with ⟨-, hns, hnb, hc1, hs'⟩ | ⟨-, hnc, hs'⟩ <;> subst hs'
          · -- hit
            rw [if_neg (by
              rw [hpsEq] at hns hnb
              rw [hpcEq] at hc1
              intro hc
              omega)]
            have hflag : decide (pointSide s (destPoint Side.BLACK f p) ≠ Side.NONE ∧
                pointSide s (destPoint Side.BLACK f p) ≠ Side.BLACK ∧
                pointCount s (destPoint Side.BLACK f p) = 1) = true := by
              rw [decide_eq_true_eq]
              exact ⟨hpsEq ▸ hns, hpsEq ▸ hnb, hpcEq ▸ hc1⟩
            rw [hflag]
            congr 1
            have hpsw : pointSide { s with b := s.b.set f.toNat (s.b.getD f.toNat 0 - 1) }
                (destPoint Side.BLACK f p) = Side.WHITE := by
              rcases pointSide_cases { s with b := s.b.set f.toNat (s.b.getD f.toNat 0 - 1) } _
                hin with ⟨hx, -⟩ | ⟨hx, -⟩ | ⟨hx, -⟩
              · exact hx
              · exact absurd hx hnb
              · exact absurd hx hns
            unfold popFromPoint
            rw [hpsw]
            simp only [dfsApplyMove, pushToBar, pushToPoint,
              SimpleState.wAt, SimpleState.bAt, side_bw_false, if_false, ite_true, ite_false,
              if_neg hf0,
              if_pos (show (1:Int) ≤ destPoint Side.BLACK f p ∧ destPoint Side.BLACK f p ≤ 24
                from hin)]
          · -- plain landing
            rw [if_neg (by
              rw [hpsEq, hpcEq] at hnc
              intro hc
              have h2 := hblk hin
              rcases Nat.lt_or_ge (pointCount s (destPoint Side.BLACK f p)) 2 with hlt | hge
              · exact hnc ⟨hc.1, hc.2.1, by omega⟩
              · exact h2 ⟨hc.1, hc.2.1, hge⟩)]
            have hflag : decide (pointSide s (destPoint Side.BLACK f p) ≠ Side.NONE ∧
                pointSide s (destPoint Side.BLACK f p) ≠ Side.BLACK ∧
                pointCount s (destPoint Side.BLACK f p) = 1) = false := by
              rw [decide_eq_false_iff_not]
              intro hc
              rw [hpsEq, hpcEq] at hnc
              exact hnc hc
            rw [hflag]
            congr 1
            simp only [dfsApplyMove, pushToBar, pushToPoint,
              SimpleState.wAt, SimpleState.bAt, side_bw_false, if_false, ite_true, ite_false,
              Bool.false_eq_true, if_neg hf0,
              if_pos (show (1:Int) ≤ destPoint Side.BLACK f p ∧ destPoint Side.BLACK f p ≤ 24
                from hin)]
        · -- bear off
          rcases hcases with ⟨hnin, -, -, hs'⟩ | ⟨hin2, -, -⟩
          swap
          · exact absurd hin2 hin
          subst hs'
          obtain ⟨hhome, -, hbcond⟩ := hoff hnin
          rw [if_neg (show ¬ ((1:Int) ≤ destPoint Side.BLACK f p ∧ destPoint Side.BLACK f p ≤ 24)
            from hin)]
          rw [if_pos ((dfsAllHome_black hInv).mpr hhome)]
          rw [if_pos (show f = 25 - p ∨ dfsAnyFurther s Side.BLACK f = false by
            rcases hbcond rfl with he | hnofar
            · exact Or.inl he
            · refine Or.inr ?_
              rw [← Bool.not_eq_true]
              intro hc
              exact hnofar ((dfsAnyFurther_black hInv f).mp hc))]
          congr 1
          simp only [dfsApplyMove, pushOff,
            SimpleState.wAt, SimpleState.bAt, side_bw_false, if_false, ite_true, ite_false,
            if_neg hf0,
            if_neg (show ¬ ((1:Int) ≤ destPoint Side.BLACK f p ∧ destPoint Side.BLACK f p ≤ 24)
              from hin)]

end BG

namespace BG

theorem le_foldl_self {α : Type} (g : Nat → α → Nat) (hg : ∀ b x, b ≤ g b x) :
    ∀ (l : List α) (a : Nat), a ≤ l.foldl g a := by
  intro l
  induction l with
  | nil => intro a; exact Nat.le_refl a
  | cons x rest ih => intro a; exact Nat.le_trans (hg a x) (ih (g a x))

theorem le_foldl_of_mem {α : Type} (g : Nat → α → Nat) (hg : ∀ b x, b ≤ g b x)
    (t : Nat) (x : α) (hb : ∀ b, t ≤ g b x) :
    ∀ (l : List α) (a : Nat), x ∈ l → t ≤ l.foldl g a := by
  intro l
  induction l with
  | nil => intro a hx; cases hx
  | cons y rest ih =>
    intro a hx
    rcases List.mem_cons.mp hx with rfl | hx2
    · exact Nat.le_trans (hb a) (le_foldl_self g hg rest (g a x))
    · exact ih (g a y) hx2

theorem dfsMax_succ (fuel : Nat) (st : SimpleState) (actor : Side) (dice : List Int)
    (mask : Nat) :
    dfsMax (fuel + 1) st actor dice mask =
      (List.range dice.length).foldl
        (fun best i =>
          if mask.testBit i then best
          else (dfsFroms st actor).foldl
            (fun best fromPt =>
              match dfsTry st actor (dice.getD i 0) fromPt with
              | none => best
              | some s3 => max best (1 + dfsMax fuel s3 actor dice (mask ||| 2 ^ i)))
            best)
        0 := rfl

/-- Taking the branch for die `i` and source `f` bounds the search result from
below: the recursion on the remaining dice contributes at least `1 +` its own
maximum. -/
theorem dfsMax_succ_ge {st s2 : SimpleState} {actor : Side} {dice : List Int}
    {mask fuel i : Nat} {f : Int}
    (hi : i < dice.length) (hbit : mask.testBit i = false)
    (hmem : f ∈ dfsFroms st actor)
    (htry : dfsTry st actor (dice.getD i 0) f = some s2) :
    1 + dfsMax fuel s2 actor dice (mask ||| 2 ^ i) ≤ dfsMax (fuel + 1) st actor dice mask := by
  rw [dfsMax_succ]
  have hginner : ∀ (j : Nat) (b : Nat) (x : Int), b ≤
      (match dfsTry st actor (dice.getD j 0) x with
       | none => b
       | some s3 => max b (1 + dfsMax fuel s3 actor dice (mask ||| 2 ^ j))) := by
    intro j b x
    cases htry2 : dfsTry st actor (dice.getD j 0) x with
    | none => exact Nat.le_refl b
    | some s3 => exact Nat.le_max_left _ _
  refine le_foldl_of_mem _ ?_ _ i ?_ (List.range dice.length) 0 (List.mem_range.mpr hi)
  · intro b j
    by_cases hc : mask.testBit j = true
    · rw [if_pos hc]
    · rw [if_neg hc]
      exact le_foldl_self _ (hginner j) (dfsFroms st actor) b
  · intro b
    rw [if_neg (by rw [hbit]; exact Bool.false_ne_true)]
    refine le_foldl_of_mem _ (hginner i) _ f ?_ (dfsFroms st actor) b hmem
    intro b2
    rw [htry]
    exact Nat.le_max_right _ _

end BG

namespace BG

theorem map_getD_range (l : List Int) :
    (List.range l.length).map (fun i => l.getD i 0) = l := by
  apply List.ext_get
  · simp
  · intro n h1 h2
    simp [List.getD_eq_getElem?_getD, List.getElem?_eq_getElem h2]

/-- A sub-permutation of the values drawn from distinct indices is itself
given by a distinct sub-list of those indices. -/
theorem exists_idxs_of_subperm (dice : List Int) :
    ∀ (pips : List Int) (avail : List Nat), avail.Nodup →
      List.Subperm pips (avail.map (fun i => dice.getD i 0)) →
      ∃ idxs : List Nat, idxs.Nodup ∧ idxs ⊆ avail ∧
        idxs.map (fun i => dice.getD i 0) = pips := by
  intro pips
  induction pips with
  | nil =>
    intro avail _ _
    exact ⟨[], List.nodup_nil, List.nil_subset avail, rfl⟩
  | cons p rest ih =>
    intro avail hnd hsub
    have hpmem : p ∈ avail.map (fun i => dice.getD i 0) :=
      hsub.subset (List.mem_cons_self p rest)
    obtain ⟨i, hiav, hip⟩ := List.mem_map.mp hpmem
    have hrest : List.Subperm rest ((avail.map (fun i => dice.getD i 0)).erase p) := by
      have h2 := hsub.erase p
      rwa [List.erase_cons_head] at h2
    have hperm : ((avail.map (fun i => dice.getD i 0)).erase p).Perm
        ((avail.erase i).map (fun i => dice.getD i 0)) := by
      have h3 : (avail.map (fun i => dice.getD i 0)).Perm
          (p :: (avail.erase i).map (fun i => dice.getD i 0)) := by
        have h4 := (List.perm_cons_erase hiav).map (fun i => dice.getD i 0)
        rwa [List.map_cons, hip] at h4
      have h5 := h3.erase p
      rwa [List.erase_cons_head] at h5
    have hrest2 : List.Subperm rest ((avail.erase i).map (fun i => dice.getD i 0)) :=
      hperm.subperm_left.mp hrest
    obtain ⟨idxs, hnd2, hss, hmap⟩ := ih (avail.erase i) (hnd.erase i) hrest2
    refine ⟨i :: idxs, ?_, ?_, ?_⟩
    · exact List.nodup_cons.mpr ⟨fun hc => hnd.not_mem_erase (hss hc), hnd2⟩
    · intro x hx
      rcases List.mem_cons.mp hx with rfl | hx2
      · exact hiav
      · exact List.erase_subset i avail (hss hx2)
    · rw [List.map_cons, hip, hmap]

end BG

namespace BG

/-- Any step log that re-plays successfully, and whose pips are drawn from
distinct unused dice indices, is counted by the search: its length bounds
`dfsMax` from below at sufficient fuel. -/
theorem replay_le_dfsMax {actor : Side} {dice : List Int} :
    ∀ (steps : List Step) (idxs : List Nat) (st s3 : SimpleState) (mask fuel : Nat),
      SInv st → replay actor st steps = some s3 →
      idxs.Nodup → (∀ i ∈ idxs, i < dice.length ∧ mask.testBit i = false) →
      steps.map Step.pip = idxs.map (fun i => dice.getD i 0) →
      (∀ stp ∈ steps, 1 ≤ stp.pip ∧ stp.pip ≤ 6) →
      steps.length ≤ fuel →
      steps.length ≤ dfsMax fuel st actor dice mask := by
  intro steps
  induction steps with
  | nil =>
    intro idxs st s3 mask fuel _ _ _ _ _ _ _
    exact Nat.zero_le _
  | cons st0 rest ih =>
    intro idxs st s3 mask fuel hInv hrep hnd hbound hmap hrange hfuel
    cases idxs with
    | nil => exact absurd hmap (by simp)
    | cons i idxs2 =>
    cases fuel with
    | zero => exact absurd hfuel (by simp)
    | succ fu =>
    simp only [replay] at hrep
    cases hstep : replayStep actor st st0 with
    | none => rw [hstep] at hrep; exact Option.noConfusion hrep
    | some s2 =>
    rw [hstep] at hrep
    unfold replayStep at hstep
    cases happ : applyCore st actor st0.fromPt st0.pip with
    | error e =>
      rw [happ] at hstep
      dsimp only at hstep
      exact Option.noConfusion hstep
    | ok pr =>
    obtain ⟨s2x, st2⟩ := pr
    rw [happ] at hstep
    dsimp only at hstep
    by_cases heq : st2 = st0
    · rw [if_pos heq] at hstep
      injection hstep with hs2
      subst hs2
      have hpip : st0.pip = dice.getD i 0 := by
        have := congrArg (fun l => l.headD 0) hmap
        simpa using this
      have hpr := hrange st0 (List.mem_cons_self st0 rest)
      have hdfs := applyCore_dfs happ hInv hpr.1 hpr.2
      rw [hpip] at hdfs
      have hbi := hbound i (List.mem_cons_self i idxs2)
      have hstep2 : 1 + dfsMax fu s2x actor dice (mask ||| 2 ^ i) ≤
          dfsMax (fu + 1) st actor dice mask :=
        dfsMax_succ_ge hbi.1 hbi.2 hdfs.1 hdfs.2
      have hrest : rest.length ≤ dfsMax fu s2x actor dice (mask ||| 2 ^ i) := by
        refine ih idxs2 s2x s3 (mask ||| 2 ^ i) fu (applyCore_sInv happ hInv) hrep
          ((List.nodup_cons.mp hnd).2) ?_ ?_
          (fun stp hstp => hrange stp (List.mem_cons_of_mem st0 hstp))
          (Nat.le_of_succ_le_succ hfuel)
        · intro j hj
          have hbj := hbound j (List.mem_cons_of_mem i hj)
          refine ⟨hbj.1, ?_⟩
          rw [Nat.testBit_or, hbj.2,
            Nat.testBit_two_pow_of_ne (fun hc => (List.nodup_cons.mp hnd).1 (by rw [hc]; exact hj))]
          rfl
        · have := congrArg List.tail hmap
          simpa using this
      calc (st0 :: rest).length = rest.length + 1 := by simp
        _ ≤ dfsMax fu s2x actor dice (mask ||| 2 ^ i) + 1 := by omega
        _ = 1 + dfsMax fu s2x actor dice (mask ||| 2 ^ i) := by omega
        _ ≤ dfsMax (fu + 1) st actor dice mask := hstep2
    · rw [if_neg heq] at hstep
      exact Option.noConfusion hstep

/-- `U ≤ M`: the number of committed steps never exceeds `maxPlayableDice`
evaluated at the turn-start snapshot, provided the log re-plays from that
snapshot and its pips are drawn (without repetition) from the turn dice. -/
theorem steps_le_maxPlayableDice {st s3 : SimpleState} {actor : Side}
    {steps : List Step} {dice : List Int}
    (hInv : SInv st) (hrep : replay actor st steps = some s3)
    (hsub : List.Subperm (steps.map Step.pip) dice)
    (hdice : ∀ d ∈ dice, 1 ≤ d ∧ d ≤ 6) :
    steps.length ≤ maxPlayableDice st actor dice := by
  have hsub2 : List.Subperm (steps.map Step.pip)
      ((List.range dice.length).map (fun i => dice.getD i 0)) := by
    rwa [map_getD_range]
  obtain ⟨idxs, hnd, hss, hmap⟩ :=
    exists_idxs_of_subperm dice (steps.map Step.pip) (List.range dice.length)
      (List.nodup_range _) hsub2
  have hlen : steps.length = idxs.length := by
    have h1 := congrArg List.length hmap
    simp at h1
    omega
  have hrange : ∀ stp ∈ steps, 1 ≤ stp.pip ∧ stp.pip ≤ 6 := by
    intro stp hstp
    exact hdice stp.pip (hsub.subset (List.mem_map_of_mem Step.pip hstp))
  unfold maxPlayableDice
  split
  · next hnil =>
    subst hnil
    have : idxs = [] := by
      cases idxs with
      | nil => rfl
      | cons j js => exact absurd (hss (List.mem_cons_self j js)) (by simp)
    rw [hlen, this]
    exact Nat.le_refl 0
  · refine replay_le_dfsMax steps idxs st s3 0 dice.length hInv hrep hnd ?_ hmap.symm hrange ?_
    · intro j hj
      exact ⟨List.mem_range.mp (hss hj), Nat.zero_testBit j⟩
    · rw [hlen]
      exact (List.subperm_of_subset hnd hss).length_le.trans (by simp)

end BG

namespace BG

theorem applyCore_step_fields {s : SimpleState} {actor : Side} {f p : Int}
    {s' : SimpleState} {st : Step}
    (h : applyCore s actor f p = Except.ok (s', st)) :
    st.fromPt = f ∧ st.pip = p := by
  obtain ⟨s1, -, -, -, -, hland⟩ := applyCore_ok_elim h
  obtain ⟨h1, h2, -, -, -⟩ := applyLand_ok_elim hland
  exact ⟨h1, h2⟩

/-- Every board the controller can produce: the fresh game, and the closure
under the public mutators (failed calls included, since they also return a
board). -/
inductive Reach : Board → Prop where
  | start (rules : Rules) : Reach (startGame rules)
  | opening {bd : Board} (d1 d2 : Int) (h : Reach bd) :
      Reach (((bd.setOpeningDice d1 d2).map Prod.snd).getD bd)
  | rollO {bd : Board} (draws : List (Int × Int)) (h : Reach bd)
      (hdr : ∀ pr ∈ draws, (1 ≤ pr.1 ∧ pr.1 ≤ 6) ∧ (1 ≤ pr.2 ∧ pr.2 ≤ 6)) :
      Reach ((bd.rollOpening draws).getD bd)
  | roll {bd : Board} (d1 d2 : Int) (h : Reach bd) :
      Reach ((bd.setDice d1 d2).getD bd)
  | move {bd : Board} (f p : Int) (h : Reach bd) : Reach (bd.applyStep f p).2
  | undo {bd : Board} (h : Reach bd) : Reach bd.undoStep.2
  | commit {bd : Board} (h : Reach bd) : Reach bd.commitTurn.2
  | offer {bd : Board} (h : Reach bd) : Reach bd.offerCube.2
  | take {bd : Board} (h : Reach bd) : Reach bd.takeCube.2
  | dropC {bd : Board} (h : Reach bd) : Reach bd.dropCube.2

/-- What a Moving-phase board owes to its turn-start snapshot. -/
structure MovingInv (bd : Board) : Prop where
  actEq : bd.turnStartActor = bd.actor
  tsInv : SInv bd.turnStart
  rep : replay bd.turnStartActor bd.turnStart bd.steps = some bd.state
  dperm : (bd.diceLeft ++ bd.steps.map Step.pip).Perm bd.turnStartDice
  drange : ∀ d ∈ bd.turnStartDice, 1 ≤ d ∧ d ≤ 6

/-- The reachable-board invariant. -/
structure Inv (bd : Board) : Prop where
  sInv : SInv bd.state
  mov : bd.phase = Phase.Moving → MovingInv bd
  openInv : bd.phase = Phase.OpeningRoll → bd.cubeval = 2 ^ bd.openingAutoDoubles % 4294967296

theorem Inv.withErr {bd : Board} (h : Inv bd) (e : String) :
    Inv { bd with lastErr := e } :=
  ⟨h.sInv, fun hm => by
    obtain ⟨a, t, r, d, g⟩ := h.mov hm
    exact ⟨a, t, r, d, g⟩, fun ho => h.openInv ho⟩

end BG

namespace BG

theorem perm_snoc_append (l m : List Int) (a : Int) :
    (l ++ (m ++ [a])).Perm ((l ++ [a]) ++ m) := by
  have h1 : (l ++ (m ++ [a])).Perm (l ++ (a :: m)) :=
    List.Perm.append_left l (List.perm_append_singleton a m)
  refine h1.trans ?_
  rw [List.append_assoc]
  exact List.Perm.refl _

theorem inv_rollOpeningBody_exit {bd : Board} (hInv : Inv bd) {w b : Int}
    (hne : w ≠ b) (hw : 1 ≤ w ∧ w ≤ 6) (hb : 1 ≤ b ∧ b ≤ 6) :
    Inv (bd.rollOpeningBody w b) := by
  unfold Board.rollOpeningBody
  rw [if_pos hne]
  simp only [Board.snapshotTurnStart]
  refine ⟨hInv.sInv, fun _ => ?_, fun ho => Phase.noConfusion ho⟩
  refine ⟨rfl, hInv.sInv, rfl, by simp, ?_⟩
  intro d hd
  try dsimp only at hd
  split at hd <;>
    (simp only [List.mem_cons, List.not_mem_nil, or_false] at hd
     rcases hd with rfl | rfl <;> omega)

theorem inv_rollOpeningBody_doubles {bd : Board} (hInv : Inv bd)
    (hph : bd.phase = Phase.OpeningRoll) {w : Int} :
    Inv (bd.rollOpeningBody w w) ∧ (bd.rollOpeningBody w w).phase = Phase.OpeningRoll := by
  unfold Board.rollOpeningBody
  rw [if_neg (not_not.mpr rfl)]
  split
  · exact ⟨hInv, hph⟩
  split
  · refine ⟨⟨hInv.sInv, fun hm => Phase.noConfusion (hph.symm.trans hm), fun _ => ?_⟩, hph⟩
    show bd.cubeval * 2 % 4294967296 = 2 ^ (bd.openingAutoDoubles + 1) % 4294967296
    rw [hInv.openInv hph, Nat.mod_mul_mod, ← pow_succ]
  · exact ⟨hInv, hph⟩

theorem inv_rollOpeningDraws : ∀ (draws : List (Int × Int)) (bd : Board), Inv bd →
    bd.phase = Phase.OpeningRoll →
    (∀ pr ∈ draws, (1 ≤ pr.1 ∧ pr.1 ≤ 6) ∧ (1 ≤ pr.2 ∧ pr.2 ≤ 6)) →
    Inv (bd.rollOpeningDraws draws) := by
  intro draws
  induction draws with
  | nil => intro bd hInv _ _; exact hInv
  | cons pr rest ih =>
    intro bd hInv hph hdr
    obtain ⟨w, b⟩ := pr
    have hpr := hdr (w, b) (List.mem_cons_self _ _)
    unfold Board.rollOpeningDraws
    split
    · next hne => exact inv_rollOpeningBody_exit hInv hne hpr.1 hpr.2
    · next heq =>
      have heq2 : w = b := not_not.mp heq
      subst heq2
      obtain ⟨hI2, hph2⟩ := inv_rollOpeningBody_doubles hInv hph (w := w)
      exact ih _ hI2 hph2 (fun q hq => hdr q (List.mem_cons_of_mem _ hq))

/-- Every reachable board satisfies the invariant. -/
theorem reach_inv {bd : Board} (h : Reach bd) : Inv bd := by
  induction h with
  | start rules =>
    exact ⟨sInv_startState, fun hm => Phase.noConfusion hm, fun _ => rfl⟩
  | opening d1 d2 h ih =>
    rename_i b
    unfold Board.setOpeningDice
    split
    · exact ih
    split
    · exact ih
    split
    · -- distinct dice: enter Moving with a fresh snapshot
      rename_i hph hrange hne
      simp only [Option.map_some', Option.getD_some, Board.snapshotTurnStart]
      refine ⟨ih.sInv, fun _ => ?_, fun ho => Phase.noConfusion ho⟩
      refine ⟨rfl, ih.sInv, rfl, by simp, ?_⟩
      intro d hd
      rw [not_or, not_or, not_or] at hrange
      try dsimp only at hd
      split at hd <;>
        (simp only [List.mem_cons, List.not_mem_nil, or_false] at hd
         rcases hd with rfl | rfl <;> omega)
    · -- equal dice: stay in OpeningRoll
      rename_i hph hrange hne2
      have hph2 : b.phase = Phase.OpeningRoll := not_not.mp hph
      split
      · split
        · exact ⟨ih.sInv, fun hm => Phase.noConfusion (hph2.symm.trans hm),
            fun _ => by
              show b.cubeval * 2 % 4294967296 = 2 ^ (b.openingAutoDoubles + 1) % 4294967296
              rw [ih.openInv hph2, Nat.mod_mul_mod, ← pow_succ]⟩
        · exact ih
      · exact ih
  | rollO draws h hdr ih =>
    rename_i b
    unfold Board.rollOpening
    split
    · exact ih
    · next hph =>
      exact inv_rollOpeningDraws draws b ih (not_not.mp hph) hdr
  | roll d1 d2 h ih =>
    rename_i b
    unfold Board.setDice
    split
    · exact ih
    split
    · exact ih
    split
    · exact ih
    · rename_i hov hph hrange
      simp only [Option.getD_some, Board.snapshotTurnStart]
      refine ⟨ih.sInv, fun _ => ?_, fun ho => Phase.noConfusion ho⟩
      refine ⟨rfl, ih.sInv, rfl, by simp, ?_⟩
      intro d hd
      rw [not_or, not_or, not_or] at hrange
      try dsimp only at hd
      split at hd
      · simp only [List.mem_cons, List.not_mem_nil, or_false, or_self] at hd
        subst hd
        omega
      · simp only [List.mem_cons, List.not_mem_nil, or_false] at hd
        rcases hd with rfl | rfl <;> omega
  | move f p h ih =>
    rename_i b
    unfold Board.applyStep
    split
    · exact ih.withErr _
    split
    · exact ih.withErr _
    split
    · exact ih.withErr _
    split
    · exact ih.withErr _
    rename_i hov hph hdl hpmem
    cases happ : applyCore b.state b.actor f p with
    | error e => exact ih.withErr _
    | ok pr =>
      obtain ⟨s, st⟩ := pr
      have hphm : b.phase = Phase.Moving := not_not.mp hph
      have pmem : p ∈ b.diceLeft := not_not.mp hpmem
      obtain ⟨hstf, hstp⟩ := applyCore_step_fields happ
      obtain ⟨actEq, tsInv, rep, dperm, drange⟩ := ih.mov hphm
      refine ⟨applyCore_sInv happ ih.sInv, fun _ => ?_, fun ho => ih.openInv ho⟩
      refine ⟨actEq, tsInv, ?_, ?_, drange⟩
      · show replay b.turnStartActor b.turnStart (b.steps ++ [st]) = some s
        have hstep : replayStep b.turnStartActor b.state st = some s := by
          unfold replayStep
          rw [actEq, hstf, hstp, happ]
          dsimp only
          rw [if_pos rfl]
        rw [replay_append, rep]
        simp [replay, hstep]
      · show (b.diceLeft.erase p ++ (b.steps ++ [st]).map Step.pip).Perm b.turnStartDice
        have h1 : (p :: b.diceLeft.erase p).Perm b.diceLeft :=
          (List.perm_cons_erase pmem).symm
        rw [List.map_append, List.map_cons, List.map_nil, hstp]
        refine List.Perm.trans ?_ dperm
        refine List.Perm.trans (perm_snoc_append _ _ _) ?_
        have h2 : ((b.diceLeft.erase p ++ [p]) ++ b.steps.map Step.pip).Perm
            ((p :: b.diceLeft.erase p) ++ b.steps.map Step.pip) :=
          List.Perm.append_right _ (List.perm_append_singleton p _)
        exact h2.trans (List.Perm.append_right _ h1)
  | undo h ih =>
    rename_i b
    unfold Board.undoStep
    split
    · exact ih
    split
    · exact ih
    rename_i hov hph
    cases hlast : b.steps.getLast? with
    | none => exact ih
    | some st =>
      have hphm : b.phase = Phase.Moving := not_not.mp hph
      obtain ⟨actEq, tsInv, rep, dperm, drange⟩ := ih.mov hphm
      have hne : b.steps ≠ [] := by
        intro hc
        rw [hc] at hlast
        exact Option.noConfusion hlast
      have hdecomp : b.steps.dropLast ++ [st] = b.steps := by
        rw [List.getLast?_eq_getLast _ hne] at hlast
        injection hlast with hlast
        rw [← hlast]
        exact List.dropLast_append_getLast hne
      rw [← hdecomp, replay_append] at rep
      cases hrep1 : replay b.turnStartActor b.turnStart b.steps.dropLast with
      | none => rw [hrep1] at rep; exact Option.noConfusion rep
      | some sp =>
      rw [hrep1, Option.some_bind] at rep
      simp only [replay] at rep
      cases hstep : replayStep b.turnStartActor sp st with
      | none => rw [hstep] at rep; exact Option.noConfusion rep
      | some s3 =>
      rw [hstep] at rep
      injection rep with rep
      unfold replayStep at hstep
      cases happ : applyCore sp b.turnStartActor st.fromPt st.pip with
      | error e => rw [happ] at hstep; exact Option.noConfusion hstep
      | ok pr =>
      obtain ⟨s2x, st2⟩ := pr
      rw [happ] at hstep
      dsimp only at hstep
      by_cases heq : st2 = st
      · rw [if_pos heq] at hstep
        injection hstep with hstep
        have hspInv : SInv sp := replay_sInv _ _ _ _ hrep1 tsInv
        have hundo : undoCore b.state b.actor st = sp := by
          have h3 := applyCore_undo happ hspInv
          rw [heq, hstep, rep, actEq] at h3
          exact h3
        refine ⟨?_, fun _ => ?_, fun ho => ih.openInv ho⟩
        · show SInv (undoCore b.state b.actor st)
          rw [hundo]
          exact hspInv
        refine ⟨actEq, tsInv, ?_, ?_, drange⟩
        · show replay b.turnStartActor b.turnStart b.steps.dropLast =
            some (undoCore b.state b.actor st)
          rw [hundo]
          exact hrep1
        · show ((b.diceLeft ++ [st.pip]) ++ b.steps.dropLast.map Step.pip).Perm
            b.turnStartDice
          rw [← hdecomp, List.map_append, List.map_cons, List.map_nil] at dperm
          exact (perm_snoc_append _ _ _).symm.trans dperm
      · rw [if_neg heq] at hstep
        exact Option.noConfusion hstep
  | commit h ih =>
    rename_i b
    unfold Board.commitTurn
    split
    · exact ih.withErr _
    split
    · exact ih.withErr _
    split
    · split
      · exact ih.withErr _
      · exact ⟨ih.sInv, fun hm => Phase.noConfusion hm, fun ho => Phase.noConfusion ho⟩
    · dsimp only
      split
      · exact ih.withErr _
      split
      · exact ih.withErr _
      · exact ⟨ih.sInv, fun hm => Phase.noConfusion hm, fun ho => Phase.noConfusion ho⟩
  | offer h ih =>
    rename_i b
    unfold Board.offerCube
    split
    · exact ih.withErr _
    split
    · exact ih.withErr _
    split
    · exact ih.withErr _
    split
    · exact ih.withErr _
    · exact ⟨ih.sInv, fun hm => Phase.noConfusion hm, fun ho => Phase.noConfusion ho⟩
  | take h ih =>
    rename_i b
    unfold Board.takeCube
    split
    · exact ih.withErr _
    split
    · exact ih.withErr _
    · exact ⟨ih.sInv, fun hm => Phase.noConfusion hm, fun ho => Phase.noConfusion ho⟩
  | dropC h ih =>
    rename_i b
    unfold Board.dropCube
    split
    · exact ih.withErr _
    split
    · exact ih.withErr _
    · rename_i hov hph
      have hphc : b.phase = Phase.CubeOffered := not_not.mp hph
      exact ⟨ih.sInv, fun hm => Phase.noConfusion (hphc.symm.trans hm), fun ho => ih.openInv ho⟩

end BG

namespace BG

/-- One public mutator call, as data: lets a whole game be replayed as a list. -/
inductive GOp where
  | opening (d1 d2 : Int)
  | roll (d1 d2 : Int)
  | move (f p : Int)
  | commit
deriving DecidableEq, Repr

/-- Run one call on a board (the total wrappers of the mutators). -/
def appGOp (o : GOp) (bd : Board) : Board :=
  match o with
  | GOp.opening d1 d2 => ((bd.setOpeningDice d1 d2).map Prod.snd).getD bd
  | GOp.roll d1 d2 => (bd.setDice d1 d2).getD bd
  | GOp.move f p => (bd.applyStep f p).2
  | GOp.commit => bd.commitTurn.2

/-- Run a call sequence. -/
def runGOps (bd : Board) : List GOp → Board
  | [] => bd
  | o :: rest => runGOps (appGOp o bd) rest

theorem reach_appGOp {bd : Board} (o : GOp) (h : Reach bd) : Reach (appGOp o bd) := by
  cases o with
  | opening d1 d2 => exact Reach.opening d1 d2 h
  | roll d1 d2 => exact Reach.roll d1 d2 h
  | move f p => exact Reach.move f p h
  | commit => exact Reach.commit h

theorem reach_runGOps {bd : Board} (l : List GOp) (h : Reach bd) : Reach (runGOps bd l) := by
  induction l generalizing bd with
  | nil => exact h
  | cons o rest ih => exact ih (reach_appGOp o h)

/-- The game record behind the higher-die counterexample: an opening 2-6 for
Black, twenty-two full turns, then Black rolls 6-2 on the bar and enters with
the 2. -/
def cexScript : List GOp :=
  [GOp.opening 2 6,
   GOp.move 1 6,
   GOp.move 7 2,
   GOp.commit,
   GOp.roll 6 5,
   GOp.move 24 6,
   GOp.move 18 5,
   GOp.commit,
   GOp.roll 6 4,
   GOp.move 9 6,
   GOp.move 15 4,
   GOp.commit,
   GOp.roll 6 5,
   GOp.move 24 6,
   GOp.move 18 5,
   GOp.commit,
   GOp.roll 6 1,
   GOp.move 12 6,
   GOp.move 18 1,
   GOp.commit,
   GOp.roll 5 4,
   GOp.move 13 5,
   GOp.move 13 4,
   GOp.commit,
   GOp.roll 6 1,
   GOp.move 12 6,
   GOp.move 18 1,
   GOp.commit,
   GOp.roll 5 4,
   GOp.move 13 5,
   GOp.move 9 4,
   GOp.commit,
   GOp.roll 6 1,
   GOp.move 12 6,
   GOp.move 18 1,
   GOp.commit,
   GOp.roll 5 4,
   GOp.move 13 5,
   GOp.move 13 4,
   GOp.commit,
   GOp.roll 6 1,
   GOp.move 12 6,
   GOp.move 18 1,
   GOp.commit,
   GOp.roll 5 4,
   GOp.move 13 5,
   GOp.move 9 4,
   GOp.commit,
   GOp.roll 6 1,
   GOp.move 12 6,
   GOp.move 18 1,
   GOp.commit,
   GOp.roll 5 4,
   GOp.move 8 5,
   GOp.move 8 4,
   GOp.commit,
   GOp.roll 2 1,
   GOp.move 17 2,
   GOp.move 19 1,
   GOp.commit,
   GOp.roll 5 4,
   GOp.move 8 5,
   GOp.move 8 4,
   GOp.commit,
   GOp.roll 2 1,
   GOp.move 17 2,
   GOp.move 19 1,
   GOp.commit,
   GOp.roll 2 1,
   GOp.move 6 2,
   GOp.move 6 1,
   GOp.commit,
   GOp.roll 2 1,
   GOp.move 17 2,
   GOp.move 19 1,
   GOp.commit,
   GOp.roll 2 1,
   GOp.move 5 2,
   GOp.move 4 1,
   GOp.commit,
   GOp.roll 6 1,
   GOp.move 1 6,
   GOp.move 19 1,
   GOp.commit,
   GOp.roll 6 5,
   GOp.move 13 6,
   GOp.move 8 5,
   GOp.commit,
   GOp.roll 6 2,
   GOp.move 0 2]

def cexC2 : Board := runGOps (startGame {}) cexScript

theorem reach_cexC2 : Reach cexC2 := reach_runGOps cexScript (Reach.start {})

end BG

namespace BG

def cexC1 : Board := runGOps (startGame {}) [GOp.opening 3 1]

/-- C1.  Amended: when steps have been applied and U < M the rejection reason
is "must use maximum number of dice", but with U = 0 and 0 < M the reason is
"at least one legal move exists"; the no-move commit at M = 0 succeeds,
clears the dice, swaps the actor and moves to AwaitingRoll. -/
theorem claim_C1 (bd : Board) (hr : Reach bd) (hov : bd.result.over = false)
    (hph : bd.phase = Phase.Moving) :
    (bd.steps ≠ [] →
      bd.steps.length < maxPlayableDice bd.turnStart bd.turnStartActor bd.turnStartDice →
      bd.commitTurn =
        (false, { bd with lastErr := "commitTurn: must use maximum number of dice" })) ∧
    (bd.steps = [] →
      0 < maxPlayableDice bd.turnStart bd.turnStartActor bd.turnStartDice →
      bd.commitTurn =
        (false, { bd with lastErr := "commitTurn: at least one legal move exists" })) ∧
    (bd.steps = [] →
      maxPlayableDice bd.turnStart bd.turnStartActor bd.turnStartDice = 0 →
      bd.commitTurn =
        (true, { bd with diceLeft := []
                         phase := Phase.AwaitingRoll
                         actor := opponent bd.actor
                         lastErr := "" })) := by
  refine ⟨?_, ?_, ?_⟩
  · intro hne hlt
    unfold Board.commitTurn
    rw [hov, if_neg Bool.false_ne_true,
      if_neg (show ¬ bd.phase ≠ Phase.Moving from not_not.mpr hph), if_neg hne]
    dsimp only
    rw [if_pos hlt]
  · intro hnil hpos
    unfold Board.commitTurn
    rw [hov, if_neg Bool.false_ne_true,
      if_neg (show ¬ bd.phase ≠ Phase.Moving from not_not.mpr hph), if_pos hnil,
      if_pos hpos]
  · intro hnil hzero
    unfold Board.commitTurn
    rw [hov, if_neg Bool.false_ne_true,
      if_neg (show ¬ bd.phase ≠ Phase.Moving from not_not.mpr hph), if_pos hnil,
      if_neg (show ¬ 0 < maxPlayableDice bd.turnStart bd.turnStartActor bd.turnStartDice by
        omega)]

/-- C1, counterexample to the claim as stated: after an opening roll of 3-1
White has applied no steps, U = 0 < M, yet the rejection reason is not
"must use maximum number of dice". -/
theorem claim_C1_counterexample :
    Reach cexC1 ∧ cexC1.result.over = false ∧ cexC1.phase = Phase.Moving ∧
    cexC1.steps.length <
      maxPlayableDice cexC1.turnStart cexC1.turnStartActor cexC1.turnStartDice ∧
    cexC1.commitTurn.1 = false ∧
    cexC1.commitTurn.2.lastErr ≠ "commitTurn: must use maximum number of dice" :=
  ⟨reach_runGOps [GOp.opening 3 1] (Reach.start {}), by decide⟩

/-- C1, witness: the amended statement applied to the same post-opening
board. -/
theorem claim_C1_witness :
    ((cexC1.steps = [] →
      0 < maxPlayableDice cexC1.turnStart cexC1.turnStartActor cexC1.turnStartDice →
      cexC1.commitTurn =
        (false, { cexC1 with lastErr := "commitTurn: at least one legal move exists" }))) ∧
    cexC1.commitTurn.2.lastErr = "commitTurn: at least one legal move exists" :=
  ⟨(claim_C1 cexC1 (reach_runGOps [GOp.opening 3 1] (Reach.start {})) (by decide)
      (by decide)).2.1,
   by decide⟩

end BG

namespace BG

/-- C2.  Amended: with steps applied, commit succeeds iff all playable dice
were used AND the higher-die rule is satisfied; the rule can reject even at
U = M (see the counterexample), so the plain "iff U = M" of the claim fails
in the non-doubles M = 1 case. -/
theorem claim_C2 (bd : Board) (hr : Reach bd) (hov : bd.result.over = false)
    (hph : bd.phase = Phase.Moving) (hne : bd.steps ≠ []) :
    bd.commitTurn.1 = true ↔
      (bd.steps.length = maxPlayableDice bd.turnStart bd.turnStartActor bd.turnStartDice ∧
       ¬ (maxPlayableDice bd.turnStart bd.turnStartActor bd.turnStartDice = 1 ∧
          bd.turnStartDice.length = 2 ∧
          bd.turnStartDice.getD 0 0 ≠ bd.turnStartDice.getD 1 0 ∧
          (bd.steps.headD {}).pip ≠
            max (bd.turnStartDice.getD 0 0) (bd.turnStartDice.getD 1 0))) := by
  obtain ⟨actEq, tsInv, rep, dperm, drange⟩ := (reach_inv hr).mov hph
  have hsub : List.Subperm (bd.steps.map Step.pip) bd.turnStartDice :=
    dperm.subperm_left.mp (List.sublist_append_right _ _).subperm
  have hUM : bd.steps.length ≤
      maxPlayableDice bd.turnStart bd.turnStartActor bd.turnStartDice :=
    steps_le_maxPlayableDice tsInv rep hsub drange
  unfold Board.commitTurn
  rw [hov, if_neg Bool.false_ne_true,
    if_neg (show ¬ bd.phase ≠ Phase.Moving from not_not.mpr hph), if_neg hne]
  dsimp only
  split
  · next hlt =>
    constructor
    · intro hc; exact Bool.noConfusion hc
    · intro hconj; exact absurd hconj.1 (by omega)
  · next hge =>
    split
    · next hhd =>
      constructor
      · intro hc; exact Bool.noConfusion hc
      · intro hconj; exact absurd hhd hconj.2
    · next hnhd =>
      constructor
      · intro _; exact ⟨Nat.le_antisymm hUM (Nat.le_of_not_lt hge), hnhd⟩
      · intro _; rfl

set_option maxRecDepth 8192 in
set_option maxHeartbeats 4000000 in
/-- C2, counterexample to the claim as stated: a full game record in which
Black, rolling 6-2 on the bar, enters with the 2; all playable dice are used
(U = M = 1, non-doubles), yet commit is rejected by the higher-die rule. -/
theorem claim_C2_counterexample :
    Reach cexC2 ∧ cexC2.result.over = false ∧ cexC2.phase = Phase.Moving ∧
    cexC2.steps ≠ [] ∧
    cexC2.turnStartDice.getD 0 0 ≠ cexC2.turnStartDice.getD 1 0 ∧
    cexC2.steps.length =
      maxPlayableDice cexC2.turnStart cexC2.turnStartActor cexC2.turnStartDice ∧
    cexC2.commitTurn.1 = false :=
  ⟨reach_cexC2, by decide⟩

def c2wb : Board := runGOps (startGame {}) [GOp.opening 3 1, GOp.move 24 3]

/-- C2, witness for the amended statement: after the opening 3-1 White has
played one step but can play both dice, so both sides of the equivalence are
false. -/
theorem claim_C2_witness :
    (c2wb.commitTurn.1 = true ↔
      (c2wb.steps.length = maxPlayableDice c2wb.turnStart c2wb.turnStartActor c2wb.turnStartDice ∧
       ¬ (maxPlayableDice c2wb.turnStart c2wb.turnStartActor c2wb.turnStartDice = 1 ∧
          c2wb.turnStartDice.length = 2 ∧
          c2wb.turnStartDice.getD 0 0 ≠ c2wb.turnStartDice.getD 1 0 ∧
          (c2wb.steps.headD {}).pip ≠
            max (c2wb.turnStartDice.getD 0 0) (c2wb.turnStartDice.getD 1 0)))) ∧
    c2wb.commitTurn.1 = false :=
  ⟨claim_C2 c2wb (reach_runGOps [GOp.opening 3 1, GOp.move 24 3] (Reach.start {}))
      (by decide) (by decide) (by decide),
   by decide⟩

end BG

namespace BG

/-- C3: one step applied, M = 1, two distinct turn dice, and the applied pip
is not the higher die: commit is rejected with the higher-die reason. -/
theorem claim_C3 (bd : Board) (st : Step) (hov : bd.result.over = false)
    (hph : bd.phase = Phase.Moving) (hsteps : bd.steps = [st])
    (hM : maxPlayableDice bd.turnStart bd.turnStartActor bd.turnStartDice = 1)
    (hlen : bd.turnStartDice.length = 2)
    (hne : bd.turnStartDice.getD 0 0 ≠ bd.turnStartDice.getD 1 0)
    (hpip : st.pip ≠ max (bd.turnStartDice.getD 0 0) (bd.turnStartDice.getD 1 0)) :
    bd.commitTurn =
      (false, { bd with
        lastErr := "commitTurn: only one die playable; must use the higher die" }) := by
  unfold Board.commitTurn
  rw [hov, if_neg Bool.false_ne_true,
    if_neg (show ¬ bd.phase ≠ Phase.Moving from not_not.mpr hph),
    if_neg (show ¬ bd.steps = [] by rw [hsteps]; intro hc; exact List.noConfusion hc)]
  dsimp only
  rw [if_neg (show ¬ bd.steps.length < maxPlayableDice bd.turnStart bd.turnStartActor
      bd.turnStartDice by rw [hsteps, hM]; simp)]
  rw [if_pos (show maxPlayableDice bd.turnStart bd.turnStartActor bd.turnStartDice = 1 ∧
      bd.turnStartDice.length = 2 ∧
      bd.turnStartDice.getD 0 0 ≠ bd.turnStartDice.getD 1 0 ∧
      (bd.steps.headD {}).pip ≠
        max (bd.turnStartDice.getD 0 0) (bd.turnStartDice.getD 1 0) from
    ⟨hM, hlen, hne, by rw [hsteps]; exact hpip⟩)]

/-- A Moving-phase board for the C3 witness: White has a single checker left
on point 2, the turn dice were 6-2, and the one applied step bore it off with
the 2. -/
def c3wb : Board :=
  { state := { w := [0, 0, 1, 0, 0, 0, 0, 0, 0, 0, 0, 0, 0,
                     0, 0, 0, 0, 0, 0, 0, 0, 0, 0, 0, 0]
               b := List.replicate 25 0
               woff := 14
               boff := 15 }
    phase := Phase.Moving
    actor := Side.WHITE
    diceLeft := [6]
    steps := [{ fromPt := 2, toPt := 0, pip := 2, borneOff := true }]
    turnStart := { w := [0, 0, 1, 0, 0, 0, 0, 0, 0, 0, 0, 0, 0,
                         0, 0, 0, 0, 0, 0, 0, 0, 0, 0, 0, 0]
                   b := List.replicate 25 0
                   woff := 14
                   boff := 15 }
    turnStartDice := [6, 2]
    turnStartActor := Side.WHITE }

/-- C3, witness: the theorem applied to `c3wb`. -/
theorem claim_C3_witness :
    maxPlayableDice c3wb.turnStart c3wb.turnStartActor c3wb.turnStartDice = 1 ∧
    c3wb.commitTurn =
      (false, { c3wb with
        lastErr := "commitTurn: only one die playable; must use the higher die" }) :=
  ⟨by decide,
   claim_C3 c3wb { fromPt := 2, toPt := 0, pip := 2, borneOff := true } (by decide)
     (by decide) (by decide) (by decide) (by decide) (by decide) (by decide)⟩

end BG

namespace BG

/-- Elimination principle for a successful `applyStep`. -/
theorem applyStep_ok_elim {bd : Board} {f p : Int}
    (h : (bd.applyStep f p).1 = true) :
    bd.result.over = false ∧ bd.phase = Phase.Moving ∧ bd.diceLeft ≠ [] ∧
    p ∈ bd.diceLeft ∧
    ∃ (s : SimpleState) (st : Step),
      applyCore bd.state bd.actor f p = Except.ok (s, st) ∧
      (bd.applyStep f p).2 = { bd with state := s
                                       steps := bd.steps ++ [st]
                                       diceLeft := bd.diceLeft.erase p
                                       lastErr := "" } := by
  unfold Board.applyStep at h ⊢
  split at h
  · exact Bool.noConfusion h
  next h1 =>
  split at h
  · exact Bool.noConfusion h
  next h2 =>
  split at h
  · exact Bool.noConfusion h
  next h3 =>
  split at h
  · exact Bool.noConfusion h
  next h4 =>
  refine ⟨by revert h1; cases bd.result.over <;> simp, not_not.mp h2, h3,
    not_not.mp h4, ?_⟩
  cases happ : applyCore bd.state bd.actor f p with
  | error e => rw [happ] at h; exact Bool.noConfusion h
  | ok pr =>
    obtain ⟨s, st⟩ := pr
    refine ⟨s, st, rfl, ?_⟩
    rw [if_neg h1, if_neg h2, if_neg h3, if_neg h4]

/-- C4.  Amended: undo after a successful step returns `true` and restores
everything except the remaining-dice order: the used pip returns at the END
of the dice list (erase-first, push-back), which is a permutation of, but in
general not equal to, the original sequence. -/
theorem claim_C4 (bd : Board) (f p : Int) (hr : Reach bd)
    (hsucc : (bd.applyStep f p).1 = true) :
    (bd.applyStep f p).2.undoStep =
      (true, { bd with diceLeft := bd.diceLeft.erase p ++ [p], lastErr := "" }) ∧
    (bd.diceLeft.erase p ++ [p]).Perm bd.diceLeft := by
  obtain ⟨hov, hph, hdl, hpm, s, st, happ, hbd2⟩ := applyStep_ok_elim hsucc
  obtain ⟨hstf, hstp⟩ := applyCore_step_fields happ
  have hundo := applyCore_undo happ (reach_inv hr).sInv
  constructor
  · rw [hbd2]
    unfold Board.undoStep
    dsimp only
    rw [hov, if_neg Bool.false_ne_true,
      if_neg (show ¬ bd.phase ≠ Phase.Moving from not_not.mpr hph),
      List.getLast?_concat]
    dsimp only
    rw [List.dropLast_concat, hundo, hstp]
  · exact (List.perm_append_singleton p _).trans (List.perm_cons_erase hpm).symm

def cexC4 : Board := runGOps (startGame {}) [GOp.opening 5 3]

/-- C4, counterexample to the claim as stated: after the opening 5-3 White
plays the 5 from point 13 and undoes it; undo succeeds but the remaining
dice come back as [3, 5], not the original [5, 3]. -/
theorem claim_C4_counterexample :
    Reach cexC4 ∧ (cexC4.applyStep 13 5).1 = true ∧
    (cexC4.applyStep 13 5).2.undoStep.1 = true ∧
    cexC4.diceLeft = [5, 3] ∧
    (cexC4.applyStep 13 5).2.undoStep.2.diceLeft = [3, 5] ∧
    (cexC4.applyStep 13 5).2.undoStep.2 ≠ cexC4 :=
  ⟨reach_runGOps [GOp.opening 5 3] (Reach.start {}), by decide⟩

/-- C4, witness: the amended statement applied to the same board. -/
theorem claim_C4_witness :
    (cexC4.applyStep 13 5).2.undoStep =
      (true, { cexC4 with diceLeft := cexC4.diceLeft.erase 5 ++ [5], lastErr := "" }) ∧
    (cexC4.diceLeft.erase 5 ++ [5]).Perm cexC4.diceLeft :=
  claim_C4 cexC4 13 5 (reach_runGOps [GOp.opening 5 3] (Reach.start {})) (by decide)

end BG

namespace BG

/-- The observable board state listed by the spec: occupancy (points, bars,
trays), phase, side to move, remaining dice, step log, cube value and holder,
and the game result. -/
def obsEq (b1 b2 : Board) : Prop :=
  b1.state = b2.state ∧ b1.phase = b2.phase ∧ b1.actor = b2.actor ∧
  b1.diceLeft = b2.diceLeft ∧ b1.steps = b2.steps ∧ b1.cubeval = b2.cubeval ∧
  b1.cubeholder = b2.cubeholder ∧ b1.result = b2.result

theorem obsEq_err (bd : Board) (e : String) : obsEq { bd with lastErr := e } bd :=
  ⟨rfl, rfl, rfl, rfl, rfl, rfl, rfl, rfl⟩

theorem obsEq_refl (bd : Board) : obsEq bd bd :=
  ⟨rfl, rfl, rfl, rfl, rfl, rfl, rfl, rfl⟩

/-- C5: every rejected command leaves the observable state exactly as it
was (only the error message changes). -/
theorem claim_C5 (bd : Board) (f p : Int) :
    ((bd.applyStep f p).1 = false → obsEq (bd.applyStep f p).2 bd) ∧
    (bd.undoStep.1 = false → obsEq bd.undoStep.2 bd) ∧
    (bd.commitTurn.1 = false → obsEq bd.commitTurn.2 bd) ∧
    (bd.offerCube.1 = false → obsEq bd.offerCube.2 bd) ∧
    (bd.takeCube.1 = false → obsEq bd.takeCube.2 bd) ∧
    (bd.dropCube.1 = false → obsEq bd.dropCube.2 bd) := by
  refine ⟨?_, ?_, ?_, ?_, ?_, ?_⟩
  · unfold Board.applyStep
    split
    · exact fun _ => obsEq_err _ _
    split
    · exact fun _ => obsEq_err _ _
    split
    · exact fun _ => obsEq_err _ _
    split
    · exact fun _ => obsEq_err _ _
    split
    · exact fun _ => obsEq_err _ _
    · exact fun hc => Bool.noConfusion hc
  · unfold Board.undoStep
    split
    · exact fun _ => obsEq_refl _
    split
    · exact fun _ => obsEq_refl _
    split
    · exact fun _ => obsEq_refl _
    · exact fun hc => Bool.noConfusion hc
  · unfold Board.commitTurn
    split
    · exact fun _ => obsEq_err _ _
    split
    · exact fun _ => obsEq_err _ _
    split
    · split
      · exact fun _ => obsEq_err _ _
      · exact fun hc => Bool.noConfusion hc
    · dsimp only
      split
      · exact fun _ => obsEq_err _ _
      split
      · exact fun _ => obsEq_err _ _
      · exact fun hc => Bool.noConfusion hc
  · unfold Board.offerCube
    split
    · exact fun _ => obsEq_err _ _
    split
    · exact fun _ => obsEq_err _ _
    split
    · exact fun _ => obsEq_err _ _
    split
    · exact fun _ => obsEq_err _ _
    · exact fun hc => Bool.noConfusion hc
  · unfold Board.takeCube
    split
    · exact fun _ => obsEq_err _ _
    split
    · exact fun _ => obsEq_err _ _
    · exact fun hc => Bool.noConfusion hc
  · unfold Board.dropCube
    split
    · exact fun _ => obsEq_err _ _
    split
    · exact fun _ => obsEq_err _ _
    · exact fun hc => Bool.noConfusion hc

/-- C5, witness: at the fresh game every one of the six commands is
rejected, and the observable state is untouched each time. -/
theorem claim_C5_witness :
    obsEq ((startGame {}).applyStep 1 1).2 (startGame {}) ∧
    obsEq (startGame {}).undoStep.2 (startGame {}) ∧
    obsEq (startGame {}).commitTurn.2 (startGame {}) ∧
    obsEq (startGame {}).offerCube.2 (startGame {}) ∧
    obsEq (startGame {}).takeCube.2 (startGame {}) ∧
    obsEq (startGame {}).dropCube.2 (startGame {}) :=
  ⟨(claim_C5 (startGame {}) 1 1).1 (by decide),
   (claim_C5 (startGame {}) 1 1).2.1 (by decide),
   (claim_C5 (startGame {}) 1 1).2.2.1 (by decide),
   (claim_C5 (startGame {}) 1 1).2.2.2.1 (by decide),
   (claim_C5 (startGame {}) 1 1).2.2.2.2.1 (by decide),
   (claim_C5 (startGame {}) 1 1).2.2.2.2.2 (by decide)⟩

/-- C6: a successful step whose destination is off the board implies the
actor is fully home (bar empty) and the bear-off was exact or from the
rearmost occupied point. -/
theorem claim_C6 (bd : Board) (f p : Int)
    (hoffb : ¬ inBoard (destPoint bd.actor f p))
    (hsucc : (bd.applyStep f p).1 = true) :
    allInHome bd.state bd.actor ∧
    (bd.actor = Side.WHITE → f = p ∨ ¬ anyFurtherFromHome bd.state Side.WHITE f) ∧
    (bd.actor = Side.BLACK → f = 25 - p ∨ ¬ anyFurtherFromHome bd.state Side.BLACK f) := by
  obtain ⟨-, -, -, -, s, st, happ, -⟩ := applyStep_ok_elim hsucc
  obtain ⟨s1, -, -, hoff, -, -⟩ := applyCore_ok_elim happ
  obtain ⟨hhome, hw, hb⟩ := hoff hoffb
  exact ⟨hhome, hw, hb⟩

/-- A Moving-phase board for the C6 witness: all fifteen White checkers sit
on point 6 and White bears one off exactly with a 6. -/
def c6wb : Board :=
  { state := { w := [0, 0, 0, 0, 0, 0, 15, 0, 0, 0, 0, 0, 0,
                     0, 0, 0, 0, 0, 0, 0, 0, 0, 0, 0, 0]
               b := [0, 0, 0, 0, 0, 0, 0, 0, 0, 0, 0, 0, 0,
                     0, 0, 0, 0, 0, 0, 15, 0, 0, 0, 0, 0] }
    phase := Phase.Moving
    actor := Side.WHITE
    diceLeft := [6, 6, 6, 6]
    turnStart := { w := [0, 0, 0, 0, 0, 0, 15, 0, 0, 0, 0, 0, 0,
                         0, 0, 0, 0, 0, 0, 0, 0, 0, 0, 0, 0]
                   b := [0, 0, 0, 0, 0, 0, 0, 0, 0, 0, 0, 0, 0,
                         0, 0, 0, 0, 0, 0, 15, 0, 0, 0, 0, 0] }
    turnStartDice := [6, 6, 6, 6]
    turnStartActor := Side.WHITE }

/-- C6, witness: the theorem applied to `c6wb` with the step 6/6. -/
theorem claim_C6_witness :
    ¬ inBoard (destPoint c6wb.actor 6 6) ∧ (c6wb.applyStep 6 6).1 = true ∧
    (allInHome c6wb.state c6wb.actor ∧
     (c6wb.actor = Side.WHITE → (6 : Int) = 6 ∨ ¬ anyFurtherFromHome c6wb.state Side.WHITE 6) ∧
     (c6wb.actor = Side.BLACK → (6 : Int) = 25 - 6 ∨ ¬ anyFurtherFromHome c6wb.state Side.BLACK 6)) :=
  ⟨by decide, by decide, claim_C6 c6wb 6 6 (by decide) (by decide)⟩

end BG

namespace BG

theorem map_getD_range_nat (l : List Nat) :
    (List.range l.length).map (fun i => l.getD i 0) = l := by
  apply List.ext_get
  · simp
  · intro n h1 h2
    simp [List.getD_eq_getElem?_getD, List.getElem?_eq_getElem h2]

theorem countAt_eq_sidePointCount (bd : Board) (sd : Side) (q : Int) :
    bd.countAt sd q = sidePointCount bd.state sd q := by
  unfold Board.countAt sidePointCount
  by_cases hin : inBoard q
  · obtain ⟨ha, hb⟩ := hin
    rw [if_neg (show ¬ (q < 1 ∨ 24 < q) by omega),
      if_neg (not_not.mpr ⟨ha, hb⟩)]
  · have hc : q < 1 ∨ 24 < q := by
      by_contra hc2
      rw [not_or] at hc2
      exact hin ⟨by omega, by omega⟩
    rw [if_pos hc, if_pos hin]

theorem sum_range'_getD {l : List Nat} (hl : l.length = 25) (h0 : l.getD 0 0 = 0) :
    ((List.range' 1 24).map (fun q => l.getD q 0)).sum = l.sum := by
  have h1 : (List.range l.length).map (fun i => l.getD i 0) = l := map_getD_range_nat l
  rw [hl] at h1
  have h2 : List.range 25 = 0 :: List.range' 1 24 := by decide
  rw [h2, List.map_cons] at h1
  have h3 := congrArg List.sum h1
  rw [List.sum_cons, h0] at h3
  omega

theorem white_total {bd : Board} (hInv : SInv bd.state) :
    ((List.range' 1 24).map (fun q : Nat => bd.countAt Side.WHITE (q : Int))).sum
      + bd.countBar Side.WHITE + bd.countOff Side.WHITE = 15 := by
  have hmap : (List.range' 1 24).map (fun q : Nat => bd.countAt Side.WHITE (q : Int)) =
      (List.range' 1 24).map (fun q => bd.state.w.getD q 0) := by
    apply List.map_congr_left
    intro q hq
    rw [List.mem_range'_1] at hq
    have hin : inBoard (q : Int) := ⟨by omega, by omega⟩
    rw [countAt_eq_sidePointCount, sidePointCount_white_eq hInv _ hin]
    show bd.state.w.getD ((q : Int)).toNat 0 = bd.state.w.getD q 0
    rw [Int.toNat_ofNat]
  rw [hmap, sum_range'_getD hInv.wlen hInv.w0]
  exact hInv.wsum

theorem black_total {bd : Board} (hInv : SInv bd.state) :
    ((List.range' 1 24).map (fun q : Nat => bd.countAt Side.BLACK (q : Int))).sum
      + bd.countBar Side.BLACK + bd.countOff Side.BLACK = 15 := by
  have hmap : (List.range' 1 24).map (fun q : Nat => bd.countAt Side.BLACK (q : Int)) =
      (List.range' 1 24).map (fun q => bd.state.b.getD q 0) := by
    apply List.map_congr_left
    intro q hq
    rw [List.mem_range'_1] at hq
    have hin : inBoard (q : Int) := ⟨by omega, by omega⟩
    rw [countAt_eq_sidePointCount, sidePointCount_black_eq hInv _ hin]
    show bd.state.b.getD ((q : Int)).toNat 0 = bd.state.b.getD q 0
    rw [Int.toNat_ofNat]
  rw [hmap, sum_range'_getD hInv.blen hInv.b0]
  exact hInv.bsum

/-- C7: in every reachable board each side accounts for exactly fifteen
checkers over the 24 points, its bar and its tray, and no point is shared by
both sides — stated on the per-side occupancy arrays themselves, so it rules
out a point holding checkers of both sides. -/
theorem claim_C7 (bd : Board) (hr : Reach bd) :
    (((List.range' 1 24).map (fun q : Nat => bd.countAt Side.WHITE (q : Int))).sum
       + bd.countBar Side.WHITE + bd.countOff Side.WHITE = 15) ∧
    (((List.range' 1 24).map (fun q : Nat => bd.countAt Side.BLACK (q : Int))).sum
       + bd.countBar Side.BLACK + bd.countOff Side.BLACK = 15) ∧
    (∀ p : Nat, 1 ≤ p → p ≤ 24 →
      bd.state.w.getD p 0 = 0 ∨ bd.state.b.getD p 0 = 0) := by
  have hInv := (reach_inv hr).sInv
  refine ⟨white_total hInv, black_total hInv, ?_⟩
  intro p h1 h24
  exact hInv.owner p (by omega)

/-- C7, witness: the conservation and single-ownership facts at the fresh
game. -/
theorem claim_C7_witness :
    (((List.range' 1 24).map (fun q : Nat => (startGame {}).countAt Side.WHITE (q : Int))).sum
       + (startGame {}).countBar Side.WHITE + (startGame {}).countOff Side.WHITE = 15) ∧
    (((List.range' 1 24).map (fun q : Nat => (startGame {}).countAt Side.BLACK (q : Int))).sum
       + (startGame {}).countBar Side.BLACK + (startGame {}).countOff Side.BLACK = 15) ∧
    (∀ p : Nat, 1 ≤ p → p ≤ 24 →
      (startGame {}).state.w.getD p 0 = 0 ∨ (startGame {}).state.b.getD p 0 = 0) :=
  claim_C7 (startGame {}) (Reach.start {})

end BG

namespace BG

/-- C8.  Amended: an opening doubles event — setOpeningDice, or one
iteration of rollOpening's retry loop — under AUTODOUBLE doubles the cube
modulo 2^32 (the source's `unsigned _cubeval <<= 1`) and bumps the counter
exactly while under the cap (0 = unlimited), is a no-op on the cube at the
cap, and never leaves OpeningRoll; in every reachable OpeningRoll board the
cube value is 2 ^ n % 2^32 after n applied auto-doubles, which equals 2 ^ n
only while n < 32. -/
theorem claim_C8 (bd : Board) (d : Int)
    (hpol : bd.rules.openingDoublePolicy = OpeningDoublePolicy.AUTODOUBLE)
    (hph : bd.phase = Phase.OpeningRoll) (hd1 : 1 ≤ d) (hd6 : d ≤ 6) :
    ((bd.rules.maxOpeningAutoDoubles = 0 ∨
        bd.openingAutoDoubles < bd.rules.maxOpeningAutoDoubles) →
      bd.setOpeningDice d d =
        some (false, { bd with cubeval := bd.cubeval * 2 % 4294967296
                               openingAutoDoubles := bd.openingAutoDoubles + 1 })) ∧
    ((¬ (bd.rules.maxOpeningAutoDoubles = 0 ∨
        bd.openingAutoDoubles < bd.rules.maxOpeningAutoDoubles)) →
      bd.setOpeningDice d d = some (false, bd)) ∧
    ((bd.rules.maxOpeningAutoDoubles = 0 ∨
        bd.openingAutoDoubles < bd.rules.maxOpeningAutoDoubles) →
      bd.rollOpeningBody d d =
        { bd with cubeval := bd.cubeval * 2 % 4294967296
                  openingAutoDoubles := bd.openingAutoDoubles + 1 }) ∧
    ((¬ (bd.rules.maxOpeningAutoDoubles = 0 ∨
        bd.openingAutoDoubles < bd.rules.maxOpeningAutoDoubles)) →
      bd.rollOpeningBody d d = bd) ∧
    (Reach bd → bd.cubeval = 2 ^ bd.openingAutoDoubles % 4294967296) := by
  refine ⟨?_, ?_, ?_, ?_, fun hr => (reach_inv hr).openInv hph⟩
  · intro hcap
    unfold Board.setOpeningDice
    rw [if_neg (not_not.mpr hph),
      if_neg (show ¬ (d < 1 ∨ 6 < d ∨ d < 1 ∨ 6 < d) by omega),
      if_neg (not_not.mpr rfl), if_pos hpol, if_pos hcap]
  · intro hcap
    unfold Board.setOpeningDice
    rw [if_neg (not_not.mpr hph),
      if_neg (show ¬ (d < 1 ∨ 6 < d ∨ d < 1 ∨ 6 < d) by omega),
      if_neg (not_not.mpr rfl), if_pos hpol, if_neg hcap]
  · intro hcap
    unfold Board.rollOpeningBody
    rw [if_neg (not_not.mpr rfl),
      if_neg (show ¬ bd.rules.openingDoublePolicy = OpeningDoublePolicy.REROLL by
        rw [hpol]; intro hc; exact OpeningDoublePolicy.noConfusion hc),
      if_pos hcap]
  · intro hcap
    unfold Board.rollOpeningBody
    rw [if_neg (not_not.mpr rfl),
      if_neg (show ¬ bd.rules.openingDoublePolicy = OpeningDoublePolicy.REROLL by
        rw [hpol]; intro hc; exact OpeningDoublePolicy.noConfusion hc),
      if_neg hcap]

def c8wb : Board := startGame { openingDoublePolicy := OpeningDoublePolicy.AUTODOUBLE }

def cexC8 : Board := runGOps c8wb (List.replicate 32 (GOp.opening 3 3))

set_option maxRecDepth 8192 in
/-- C8, counterexample to the claim as stated: with unlimited auto-doubles,
32 consecutive opening doubles are reachable and wrap the 32-bit cube to 0,
so "after n applied auto-doubles the cube value is 2^n" fails at n = 32. -/
theorem claim_C8_counterexample :
    Reach cexC8 ∧ cexC8.phase = Phase.OpeningRoll ∧
    cexC8.openingAutoDoubles = 32 ∧ cexC8.cubeval = 0 ∧
    cexC8.cubeval ≠ 2 ^ cexC8.openingAutoDoubles :=
  ⟨reach_runGOps (List.replicate 32 (GOp.opening 3 3)) (Reach.start _), by decide⟩

/-- C8, witness: a fresh game with unlimited auto-doubles, rolling 3-3 —
through both entry points — and the 2 ^ n mod 2^32 invariant at it. -/
theorem claim_C8_witness :
    c8wb.setOpeningDice 3 3 =
      some (false, { c8wb with cubeval := c8wb.cubeval * 2 % 4294967296
                               openingAutoDoubles := c8wb.openingAutoDoubles + 1 }) ∧
    c8wb.rollOpeningBody 3 3 =
      { c8wb with cubeval := c8wb.cubeval * 2 % 4294967296
                  openingAutoDoubles := c8wb.openingAutoDoubles + 1 } ∧
    c8wb.cubeval = 2 ^ c8wb.openingAutoDoubles % 4294967296 :=
  ⟨(claim_C8 c8wb 3 (by decide) (by decide) (by decide) (by decide)).1
      (Or.inl (by decide)),
   (claim_C8 c8wb 3 (by decide) (by decide) (by decide) (by decide)).2.2.1
      (Or.inl (by decide)),
   (claim_C8 c8wb 3 (by decide) (by decide) (by decide) (by decide)).2.2.2.2
      (Reach.start _)⟩

/-- C9: a successful dropCube only fills in the game result and clears the
pending offer (and the error message); the phase is still CubeOffered, and
actor, cube value, cube holder and the whole occupancy are untouched. -/
theorem claim_C9 (bd : Board) (hov : bd.result.over = false)
    (hph : bd.phase = Phase.CubeOffered) :
    bd.dropCube =
      (true, { bd with
        result := { over := true, winner := bd.cubePendingFrom,
                    finalCube := bd.cubeval, resigned := true }
        cubePendingFrom := Side.NONE
        lastErr := "" }) := by
  unfold Board.dropCube
  rw [hov, if_neg Bool.false_ne_true,
    if_neg (show ¬ bd.phase ≠ Phase.CubeOffered from not_not.mpr hph)]

def c9wb : Board := { startGame {} with phase := Phase.CubeOffered
                                        actor := Side.WHITE
                                        cubePendingFrom := Side.WHITE }

/-- C9, witness: the theorem applied to a board with a pending offer from
White. -/
theorem claim_C9_witness :
    c9wb.dropCube =
      (true, { c9wb with
        result := { over := true, winner := c9wb.cubePendingFrom,
                    finalCube := c9wb.cubeval, resigned := true }
        cubePendingFrom := Side.NONE
        lastErr := "" }) ∧
    c9wb.dropCube.2.phase = Phase.CubeOffered :=
  ⟨claim_C9 c9wb (by decide) (by decide), by decide⟩

end BG

namespace BG

/-- C10: create with an existing name returns the stored match and leaves the
registry alone; with a new name it stores a match whose config has
length 0 canonicalized to continuous play, and the new match is found under
its name afterwards. -/
theorem claim_C10 (reg : MatchRegistry) (name : String) (lp : Nat) (cont : Bool) :
    (∀ m : Match, reg.find name = some m → reg.create name lp cont = (m, reg)) ∧
    (reg.find name = none →
      (reg.create name lp cont).1 =
        { id := name, name := name,
          cfg := { length_points := lp,
                   continuous := if lp = 0 then true else cont } } ∧
      (reg.create name lp cont).2.find name = some ((reg.create name lp cont).1)) := by
  constructor
  · intro m hm
    unfold MatchRegistry.create MatchRegistry.ensure_
    rw [hm]
  · intro hm
    have h0 : reg.by_name_.find? (fun e => e.1 = name) = none := by
      unfold MatchRegistry.find at hm
      cases hcase : reg.by_name_.find? (fun e => e.1 = name) with
      | none => rfl
      | some e => rw [hcase] at hm; exact Option.noConfusion hm
    unfold MatchRegistry.create MatchRegistry.ensure_
    rw [hm]
    dsimp only
    refine ⟨rfl, ?_⟩
    unfold MatchRegistry.find
    dsimp only
    rw [List.find?_append, h0]
    simp

def c10reg : MatchRegistry := {}

/-- C10, witness: creating "Match1" with length 0 in the empty registry. -/
theorem claim_C10_witness :
    (c10reg.create "Match1" 0 false).1 =
      { id := "Match1", name := "Match1",
        cfg := { length_points := 0,
                 continuous := if (0 : Nat) = 0 then true else false } } ∧
    (c10reg.create "Match1" 0 false).2.find "Match1" =
      some ((c10reg.create "Match1" 0 false).1) :=
  (claim_C10 c10reg "Match1" 0 false).2 (by decide)

end BG
